import Mathlib

set_option maxHeartbeats 1000000

/-!
Shallow embedding of `png.go` (package gofpdf): a streaming PNG decoder
feeding a document-generation pipeline.  The byte source (`io.Reader`) is
modelled as a `List Nat` of byte values; every read primitive consumes a
prefix of that list.  Machine integers are modelled as `Nat` (the `readable`
counter is a `uint32` in the source, always held below `2^32` here because it
is only ever assigned from a 4-byte big-endian decode and decremented).
Fallible operations return `Except PngErr` / `Option PngErr`.  The `float64`
dpi field is modelled as `ℚ`.  Calls into Go's standard library
(`compress/zlib`, `bytes.Buffer`) are external to the repository: the zlib
writer owned by the alpha separator is modelled by the exact byte sequence
written into it (`alphaAcc`), i.e. the content its inflation yields.
-/

/-- Error values.  Each constructor corresponds to one construction site in
`png.go` (or in the Go runtime/stdlib behaviour the code relies on):
`eof` = `io.EOF` (also produced by `pngStream.next`, which converts
`io.ErrUnexpectedEOF` into `io.EOF`); `unexpectedEof` = a raw
`io.ErrUnexpectedEOF` from a direct `io.ReadFull`; `notPng` =
"not a PNG buffer"; `depth16` = "16-bit depth not supported in PNG file";
`badCompression`/`badFilter`/`badInterlace` = the three nonzero-method
errors of `parseHeader`; `unknownColorType` = "unknown color type in PNG
buffer"; `missingPalette` = "missing palette in PNG buffer"; `idatOverflow` =
"IDAT chunk length overflow"; `oobPanic` = a Go runtime index/slice
out-of-range panic; `fuelOut` is an artefact of the fuel-based loop
encodings, never reached when the fuel is the input length plus one. -/
inductive PngErr where
  | eof
  | unexpectedEof
  | notPng
  | depth16
  | badCompression
  | badFilter
  | badInterlace
  | unknownColorType
  | missingPalette
  | idatOverflow
  | oobPanic
  | fuelOut
deriving DecidableEq

/-- `stateInit` constant from `png.go`. -/
def stateInit : Nat := 0

/-- `stateSignature` constant from `png.go`. -/
def stateSignature : Nat := 1

/-- `stateHeader` constant from `png.go`. -/
def stateHeader : Nat := 2

/-- `stateAnc` constant from `png.go`. -/
def stateAnc : Nat := 3

/-- `stateData` constant from `png.go`. -/
def stateData : Nat := 4

/-- `stateEnd` constant from `png.go`. -/
def stateEnd : Nat := 5

/-- The mutable fields of Go's `pngStream`, with the wrapped reader `r`
replaced by the list of bytes not yet consumed (`input`).  The scratch
buffers `buf`/`tmp` and the cursor `off` carry no abstract state and are
dropped; `trns` stores small numbers, `dpi` is the `float64` field as `ℚ`. -/
structure PngState where
  input : List Nat
  state : Nat := 0
  readable : Nat := 0
  trns : List Nat := []
  pal : List Nat := []
  readdpi : Bool := false
  dpi : Option ℚ := none
  w : Nat := 0
  h : Nat := 0
  bpc : Nat := 0
  ct : Nat := 0
deriving DecidableEq

/-- `pngStream.next`: `io.ReadFull` into the scratch buffer, with
`io.ErrUnexpectedEOF` converted to `io.EOF` — so any shortfall, partial or
total, is reported as `eof`.  Returns the bytes read and the rest. -/
def readN (inp : List Nat) (n : Nat) : Except PngErr (List Nat × List Nat) :=
  if n ≤ inp.length then .ok (inp.take n, inp.drop n) else .error .eof

/-- A direct `io.ReadFull` (as used by `parsePalette`, `parsetRNS`,
`ignoreChunk`, `readPaletteIndex`, `alphaSeparator.Read`): `io.EOF` when no
byte was available, `io.ErrUnexpectedEOF` when only some were. -/
def readFullRaw (inp : List Nat) (n : Nat) : Except PngErr (List Nat × List Nat) :=
  if n ≤ inp.length then .ok (inp.take n, inp.drop n)
  else if inp.length = 0 then .error .eof
  else .error .unexpectedEof

/-- `binary.BigEndian.Uint32` over a 4-byte list. -/
def beUint (l : List Nat) : Nat :=
  l.foldl (fun a b => a * 256 + b) 0

/-- The 8-byte PNG signature `"\x89PNG\x0d\x0a\x1a\x0a"`. -/
def pngSigBytes : List Nat := [137, 80, 78, 71, 13, 10, 26, 10]

/-- `pngStream.parseSignature`: set state to `stateSignature`, read 8 bytes
through `next`, compare with the signature. -/
def parseSignature (p : PngState) : Except PngErr PngState :=
  match readN p.input 8 with
  | .error e => .error e
  | .ok (sg, rest) =>
    if sg = pngSigBytes then .ok { p with state := stateSignature, input := rest }
    else .error .notPng

/-- `pngStream.parseHeader`: width, height (big-endian 32-bit), bit depth
(reject > 8), color type, then three method bytes that must each be 0. -/
def parseHeader (p : PngState) : Except PngErr PngState :=
  match readN p.input 4 with
  | .error e => .error e
  | .ok (wb, r1) =>
  match readN r1 4 with
  | .error e => .error e
  | .ok (hb, r2) =>
  match readN r2 1 with
  | .error e => .error e
  | .ok (bpcb, r3) =>
  if 8 < bpcb.headD 0 then .error .depth16
  else
  match readN r3 1 with
  | .error e => .error e
  | .ok (ctb, r4) =>
  match readN r4 1 with
  | .error e => .error e
  | .ok (cmb, r5) =>
  if cmb.headD 0 ≠ 0 then .error .badCompression
  else
  match readN r5 1 with
  | .error e => .error e
  | .ok (fmb, r6) =>
  if fmb.headD 0 ≠ 0 then .error .badFilter
  else
  match readN r6 1 with
  | .error e => .error e
  | .ok (imb, r7) =>
  if imb.headD 0 ≠ 0 then .error .badInterlace
  else .ok { p with input := r7, w := beUint wb, h := beUint hb,
                    bpc := bpcb.headD 0, ct := ctb.headD 0 }

/-- `pngStream.parsePalette`: read `readable` bytes verbatim as the palette. -/
def parsePalette (p : PngState) : Except PngErr PngState :=
  match readFullRaw p.input p.readable with
  | .error e => .error e
  | .ok (t, rest) => .ok { p with pal := t, input := rest }

/-- `pngStream.parsetRNS`: read `readable` bytes, then interpret by color
type.  Color type 0 indexes payload byte 1 unconditionally, color type 2
indexes bytes 1, 3, 5 unconditionally — a short payload is a runtime
out-of-range panic in Go, modelled as `oobPanic`.  Any other color type
takes the index of the first zero byte, if any. -/
def parsetRNS (p : PngState) : Except PngErr PngState :=
  match readFullRaw p.input p.readable with
  | .error e => .error e
  | .ok (t, rest) =>
    if p.ct = 0 then
      if h1 : 1 < t.length then
        .ok { p with trns := [t.get ⟨1, h1⟩], input := rest }
      else .error .oobPanic
    else if p.ct = 2 then
      if h5 : 5 < t.length then
        have h1 : 1 < t.length := by omega
        have h3 : 3 < t.length := by omega
        .ok { p with input := rest,
                     trns := [t.get ⟨1, h1⟩, t.get ⟨3, h3⟩, t.get ⟨5, h5⟩] }
      else .error .oobPanic
    else
      match t.findIdx? (fun b => b = 0) with
      | some pos => .ok { p with trns := [pos], input := rest }
      | none => .ok { p with input := rest }

/-- The constant `39.3701` (inches per meter) of `parsepHYs`, as a rational. -/
def inchesPerMeterQ : ℚ := 393701 / 10000

/-- `pngStream.parsepHYs`: x, y resolutions and a unit byte; the dpi field is
assigned only when `x == y && p.readdpi`; unit value 1 means pixels/meter. -/
def parsepHYs (p : PngState) : Except PngErr PngState :=
  match readN p.input 4 with
  | .error e => .error e
  | .ok (xb, r1) =>
  match readN r1 4 with
  | .error e => .error e
  | .ok (yb, r2) =>
  match readN r2 1 with
  | .error e => .error e
  | .ok (ub, r3) =>
    let x := beUint xb
    let y := beUint yb
    if x = y ∧ p.readdpi = true then
      if ub.headD 0 = 1 then
        .ok { p with input := r3, dpi := some ((x : ℚ) / inchesPerMeterQ) }
      else
        .ok { p with input := r3, dpi := some (x : ℚ) }
    else .ok { p with input := r3 }

/-- The skip loop of `pngStream.ignoreChunk`, fuel-indexed; one unit of fuel
per 768-byte block. -/
def ignoreChunkFuel : Nat → List Nat → Nat → Except PngErr (List Nat)
  | 0, _, _ => .error .fuelOut
  | fuel + 1, inp, n =>
    if n = 0 then .ok inp
    else
      match readFullRaw inp (min n 768) with
      | .error e => .error e
      | .ok (_, rest) => ignoreChunkFuel fuel rest (n - min n 768)

/-- `pngStream.ignoreChunk`: skip `n` bytes in blocks of at most 768
(`len(p.buf) = 3 << 8`), each block a direct `io.ReadFull`.  Every pass but
the last skips exactly 768 bytes, so fuel `n / 768 + 2` always suffices. -/
def ignoreChunk (inp : List Nat) (n : Nat) : Except PngErr (List Nat) :=
  ignoreChunkFuel (n / 768 + 2) inp n

/-- Chunk type tag "IHDR" as bytes. -/
def tagIHDR : List Nat := [73, 72, 68, 82]

/-- Chunk type tag "PLTE" as bytes. -/
def tagPLTE : List Nat := [80, 76, 84, 69]

/-- Chunk type tag "tRNS" as bytes. -/
def tagTRNS : List Nat := [116, 82, 78, 83]

/-- Chunk type tag "pHYs" as bytes. -/
def tagPHYS : List Nat := [112, 72, 89, 115]

/-- Chunk type tag "IDAT" as bytes. -/
def tagIDAT : List Nat := [73, 68, 65, 84]

/-- Chunk type tag "IEND" as bytes. -/
def tagIEND : List Nat := [73, 69, 78, 68]

/-- `pngStream.parseChunk`: read the 4-byte length into `readable` and the
4-byte type tag, dispatch on the tag, and afterwards consume the 4-byte CRC —
except for `IDAT`, which returns immediately leaving its payload and CRC
unconsumed.  Note that `readable` keeps the declared length of whatever chunk
was parsed last, even after its payload has been consumed. -/
def parseChunk (p : PngState) : Except PngErr PngState :=
  match readN p.input 4 with
  | .error e => .error e
  | .ok (lb, r1) =>
  match readN r1 4 with
  | .error e => .error e
  | .ok (tg, r2) =>
    let p1 : PngState := { p with readable := beUint lb, input := r2 }
    if tg = tagIDAT then .ok { p1 with state := stateData }
    else
      let after : Except PngErr PngState :=
        if tg = tagIHDR then parseHeader { p1 with state := stateHeader }
        else if tg = tagPLTE then parsePalette { p1 with state := stateAnc }
        else if tg = tagTRNS then parsetRNS { p1 with state := stateAnc }
        else if tg = tagPHYS then parsepHYs { p1 with state := stateAnc }
        else if tg = tagIEND then .ok { p1 with state := stateEnd }
        else
          match ignoreChunk p1.input p1.readable with
          | .error e => .error e
          | .ok rest => .ok { p1 with input := rest }
      match after with
      | .error e => .error e
      | .ok p2 =>
        match readN p2.input 4 with
        | .error e => .error e
        | .ok (_, r3) => .ok { p2 with input := r3 }

/-- The chunk loop of `pngStream.parseUntil` (`for p.state < state`),
fuel-indexed.  Each successful `parseChunk` consumes at least 8 input bytes,
so fuel `input.length + 1` always suffices. -/
def parseChunksFuel : Nat → PngState → Nat → Except PngErr PngState
  | 0, _, _ => .error .fuelOut
  | fuel + 1, p, target =>
    if p.state < target then
      match parseChunk p with
      | .error e => .error e
      | .ok p1 => parseChunksFuel fuel p1 target
    else .ok p

/-- `pngStream.parseUntil`: verify the signature when still in `stateInit`,
then parse chunks until the state reaches `target`. -/
def parseUntil (p : PngState) (target : Nat) : Except PngErr PngState :=
  match (if p.state = stateInit then parseSignature p else .ok p) with
  | .error e => .error e
  | .ok p1 => parseChunksFuel (p1.input.length + 1) p1 target

/-- The `for p.readable == 0 { parseChunk }` loop of `pngStream.Read`,
fuel-indexed. -/
def skipZeroFuel : Nat → PngState → Except PngErr PngState
  | 0, _ => .error .fuelOut
  | fuel + 1, p =>
    if p.readable = 0 then
      match parseChunk p with
      | .error e => .error e
      | .ok p1 => skipZeroFuel fuel p1
    else .ok p

/-- `pngStream.Read` with a caller buffer of length `b`: EOF past `stateData`;
parse up to `stateData`; the dead `p.readable < 0` check (`readable` is a
`uint32`); skip zero-`readable` chunk frames; then drain up to
`min b readable` bytes from the source and consume the CRC once the current
chunk is exhausted.  Returns the bytes placed in the caller's buffer, the
error («nil» as `none`), and the successor state. -/
def sread (p : PngState) (b : Nat) : List Nat × Option PngErr × PngState :=
  if stateData < p.state then ([], some .eof, p)
  else
    match parseUntil p stateData with
    | .error e => ([], some e, p)
    | .ok p1 =>
      if p1.readable < 0 then ([], some .idatOverflow, p1)
      else
        match skipZeroFuel (p1.input.length + 1) p1 with
        | .error e => ([], some e, p1)
        | .ok p2 =>
          let k := min b p2.readable
          let n := min k p2.input.length
          let bs := p2.input.take n
          let rerr : Option PngErr := if n = 0 ∧ 0 < k then some .eof else none
          let p3 : PngState :=
            { p2 with input := p2.input.drop n, readable := p2.readable - n }
          if p3.readable = 0 then
            match readN p3.input 4 with
            | .error e => (bs, some e, p3)
            | .ok (_, r4) => (bs, none, { p3 with input := r4 })
          else (bs, rerr, p3)

/-- Repeatedly call `sread` until it reports an error, concatenating the
bytes obtained — the exhaustive read loop a consumer of the color stream
performs.  Fuel-indexed; `readAll` supplies fuel `input.length + 1`, enough
because every error-free `sread` with `b ≥ 1` consumes at least one byte. -/
def readAllGo : Nat → PngState → Nat → List Nat × PngErr
  | 0, _, _ => ([], .fuelOut)
  | fuel + 1, p, b =>
    match sread p b with
    | (bs, some e, _) => (bs, e)
    | (bs, none, p1) =>
      let rest := readAllGo fuel p1 b
      (bs ++ rest.1, rest.2)

/-- Read the color stream to exhaustion with caller buffers of size `b`. -/
def readAll (p : PngState) (b : Nat) : List Nat × PngErr :=
  readAllGo (p.input.length + 1) p b

/-- `Fpdf.pngColorSpace`: the §4.3 classification, with the channel count
(`colorVal`); an unrecognized color type sets the unknown-color-type error. -/
def pngColorSpace (ct : Nat) : Except PngErr (String × Nat) :=
  if ct = 0 ∨ ct = 4 then .ok ("DeviceGray", 1)
  else if ct = 2 ∨ ct = 6 then .ok ("DeviceRGB", 3)
  else if ct = 3 then .ok ("Indexed", 1)
  else .error .unknownColorType

/-- The fields of `ImageInfoType` that `parsepngstream` assigns and that the
claims depend on.  `ImageInfoType` itself lives outside `src/`; modelled from
the spec (§3 ImageDescriptor): width, height, color model, bits-per-channel,
palette, transparency, and whether the alpha pipeline (color types ≥ 4) was
attached.  The streams `r`/`smask` are represented by the decoder state
(`DecodeResult.stream`) and the separator's accumulator respectively. -/
structure ImageInfo where
  w : Nat
  h : Nat
  cs : String
  bpc : Nat
  colorVal : Nat
  pal : List Nat
  trns : List Nat
  alphaPipeline : Bool
deriving DecidableEq

/-- Result of `Fpdf.parsepngstream`: the descriptor (`nil` as `none`), the
`f.err` field after the call, and the `pngStream` the descriptor's color
stream reads from. -/
structure DecodeResult where
  info : Option ImageInfo
  err : Option PngErr
  stream : PngState
deriving DecidableEq

/-- `Fpdf.parsepngstream`: parse to `stateData`, classify the color space,
set (but do not return on) the missing-palette error for an Indexed image
with an empty palette, then build the descriptor.  For color types ≥ 4 the
code additionally wires the zlib-inflate / alpha-separator / recompressor
pipeline; those are `compress/zlib` objects external to the repository,
modelled here only by the `alphaPipeline` flag (no claim inspects that
pipeline through this entry point). -/
def parsepngstream (inp : List Nat) (readdpi : Bool) : DecodeResult :=
  let p0 : PngState := { input := inp, readdpi := readdpi }
  match parseUntil p0 stateData with
  | .error e => { info := none, err := some e, stream := p0 }
  | .ok p =>
    match pngColorSpace p.ct with
    | .error e => { info := none, err := some e, stream := p }
    | .ok cv =>
      let e1 : Option PngErr :=
        if cv.1 = "Indexed" ∧ p.pal = [] then some .missingPalette else none
      { info := some { w := p.w, h := p.h, cs := cv.1, bpc := p.bpc,
                       colorVal := cv.2, pal := p.pal, trns := p.trns,
                       alphaPipeline := 4 ≤ p.ct },
        err := e1, stream := p }

/-- The mutable fields of Go's `alphaSeparator`: the wrapped decompressed
pixel stream `rc` as the remaining byte list `input`, and the zlib writer
feeding the soft-mask buffer as the sequence of bytes written into it
(`alphaAcc` — inflating the produced mask stream yields exactly these). -/
structure AlphaSep where
  input : List Nat
  w : Nat
  h : Nat
  chs : Nat
  stride : Nat
  alphaAcc : List Nat
  off : Nat
deriving DecidableEq

/-- `newAlphaSeparator`: stride = 1 + (chs + 1) * w, offset 0. -/
def newAlphaSeparator (inp : List Nat) (w h chs : Nat) : AlphaSep :=
  { input := inp, w := w, h := h, chs := chs, stride := 1 + (chs + 1) * w,
    alphaAcc := [], off := 0 }

/-- `alphaSeparator.readPaletteIndex`: read one byte, advance the offset,
and write that same byte into the alpha compressor; the byte is also left in
the caller's buffer and the count 1 is returned. -/
def readPaletteIndex (a : AlphaSep) : List Nat × Option PngErr × AlphaSep :=
  match readFullRaw a.input 1 with
  | .error e => ([], some e, a)
  | .ok (bs, rest) =>
    (bs, none,
     { a with input := rest, off := a.off + 1, alphaAcc := a.alphaAcc ++ bs })

/-- `alphaSeparator.Read` with a caller buffer of length `b`.  Empty buffer:
return 0.  Past `h * stride`: EOF.  At a row boundary (`off % stride = 0`):
`readPaletteIndex` (the filter byte).  Otherwise read the rest of the current
pixel (`chs + 1 - c` bytes where `c = (j - 1) % (chs + 1)`) in one
`io.ReadFull` — a Go slice-bounds panic if the caller's buffer is shorter —
write the final (alpha) byte of it to the compressor, and report `n - 1`
bytes (the color samples) to the caller.  On a short read the bytes obtained
are reported raw together with the error. -/
def aread (a : AlphaSep) (b : Nat) : List Nat × Option PngErr × AlphaSep :=
  if b = 0 then ([], none, a)
  else if a.h * a.stride ≤ a.off then ([], some .eof, a)
  else
    let j := a.off % a.stride
    if j = 0 then readPaletteIndex a
    else
      let c := (j - 1) % (a.chs + 1)
      let need := a.chs + 1 - c
      if b < need then ([], some .oobPanic, a)
      else
        match readFullRaw a.input need with
        | .error e =>
          let n := a.input.length
          (a.input.take n, some e, { a with input := [], off := a.off + n })
        | .ok (bs, rest) =>
          (bs.take (need - 1), none,
           { a with input := rest, off := a.off + need,
                    alphaAcc := a.alphaAcc ++ bs.drop (a.chs - c) })

/-- A consumer loop over `alphaSeparator.Read` with buffer size `chs + 1`
(always at least the remainder of a pixel, so no slice panic can occur),
collecting the forwarded color bytes until the separator reports an error
(EOF at `off = h * stride`).  Fuel-indexed; `drain` supplies fuel
`h * stride + 1 - off`, enough because every error-free call advances `off`. -/
def drainGo : Nat → AlphaSep → List Nat × PngErr × AlphaSep
  | 0, a => ([], .fuelOut, a)
  | fuel + 1, a =>
    match aread a (a.chs + 1) with
    | (bs, some e, a1) => (bs, e, a1)
    | (bs, none, a1) =>
      let r := drainGo fuel a1
      (bs ++ r.1, r.2.1, r.2.2)

/-- Drain the separator: all color bytes it forwards, the terminating error,
and the final state (whose `alphaAcc` is the full mask stream content). -/
def drain (a : AlphaSep) : List Nat × PngErr × AlphaSep :=
  drainGo (a.h * a.stride + 1 - a.off) a

/-- Pure per-pixel demultiplexing of `k` pixels of `chs + 1` bytes each:
first component the leading `chs` color samples of each pixel, second the
trailing alpha sample of each pixel. -/
def demuxPixels (chs : Nat) : Nat → List Nat → List Nat × List Nat
  | 0, _ => ([], [])
  | k + 1, l =>
    let r := demuxPixels chs k (l.drop (chs + 1))
    (l.take chs ++ r.1, (l.drop chs).take 1 ++ r.2)

/-- Pure per-row demultiplexing of `r` rows of `1 + (chs + 1) * w` bytes:
each row contributes its filter byte to BOTH output streams (as the code
does), followed by the color samples in the first and the alpha samples in
the second. -/
def demuxRows (chs w : Nat) : Nat → List Nat → List Nat × List Nat
  | 0, _ => ([], [])
  | r + 1, l =>
    let px := demuxPixels chs w (l.drop 1)
    let rest := demuxRows chs w r (l.drop (1 + (chs + 1) * w))
    (l.take 1 ++ px.1 ++ rest.1, l.take 1 ++ px.2 ++ rest.2)

/-- Re-interleave `k` pixels of one row: `chs` color bytes then 1 alpha byte
per pixel. -/
def reRow (chs : Nat) : Nat → List Nat → List Nat → List Nat
  | 0, _, _ => []
  | k + 1, cs, al =>
    cs.take chs ++ al.take 1 ++ reRow chs k (cs.drop chs) (al.drop 1)

/-- Modelled from the spec: the §4.2 / §8 re-interleaving, which assumes the
mask stream consists of alpha samples only (w per row, no filter bytes):
each row is rebuilt as the color stream's filter byte, then per pixel `chs`
color bytes and one alpha byte taken from the front of the mask stream. -/
def reinterleaveSpec (chs w : Nat) : Nat → List Nat → List Nat → List Nat
  | 0, _, _ => []
  | r + 1, cs, al =>
    cs.take 1 ++ reRow chs w (cs.drop 1) al ++
      reinterleaveSpec chs w r (cs.drop (1 + chs * w)) (al.drop w)

/-- The re-interleaving matching the code's actual mask layout: the mask
stream carries one duplicated filter byte at the head of each row
(`1 + w` bytes per row), which is skipped when rebuilding the row. -/
def reinterleaveAm (chs w : Nat) : Nat → List Nat → List Nat → List Nat
  | 0, _, _ => []
  | r + 1, cs, al =>
    cs.take 1 ++ reRow chs w (cs.drop 1) (al.drop 1) ++
      reinterleaveAm chs w r (cs.drop (1 + chs * w)) (al.drop (1 + w))

/-- The parser state `parseChunk` leaves behind after a successful dispatch
of a chunk with type tag `tg`, as a function of the tag and the prior state:
fixed targets for the six recognized tags, unchanged otherwise. -/
def chunkTarget (tg : List Nat) (cur : Nat) : Nat :=
  if tg = tagIDAT then stateData
  else if tg = tagIHDR then stateHeader
  else if tg = tagPLTE ∨ tg = tagTRNS ∨ tg = tagPHYS then stateAnc
  else if tg = tagIEND then stateEnd
  else cur

/-- Successive parser states after each of up to `k` chunk dispatches
(stopping at the first failing dispatch). -/
def stateTraceGo : Nat → PngState → List Nat
  | 0, _ => []
  | k + 1, p =>
    match parseChunk p with
    | .error _ => []
    | .ok p1 => p1.state :: stateTraceGo k p1

/-- The parser-state trace of one decode instance over `inp`: the state after
the signature check followed by the state after each of `k` chunk dispatches. -/
def stateTrace (inp : List Nat) (k : Nat) : List Nat :=
  match parseSignature { input := inp } with
  | .error _ => []
  | .ok p1 => p1.state :: stateTraceGo k p1

/-- Big-endian 4-byte encoding of `n` (mod 2^32). -/
def be32 (n : Nat) : List Nat :=
  [n / 2 ^ 24 % 256, n / 2 ^ 16 % 256, n / 2 ^ 8 % 256, n % 256]

/-- A chunk frame: 4-byte big-endian length, 4-byte type tag, payload, and a
4-byte CRC (never verified by the code; zeros here). -/
def mkChunk (tg payload : List Nat) : List Nat :=
  be32 payload.length ++ tg ++ payload ++ [0, 0, 0, 0]

/-- The 13-byte IHDR payload: width, height, bit depth, color type, and the
three method bytes (all zero: deflate compression, filter method 0, no
interlace). -/
def ihdrPayload (w h bpc ct : Nat) : List Nat :=
  be32 w ++ be32 h ++ [bpc, ct, 0, 0, 0]

/-- A well-formed PNG byte stream: signature, IHDR, a PLTE chunk when the
color type is 3, the IDAT chunks, and IEND. -/
def pngFile (w h bpc ct : Nat) (pal : List Nat) (payloads : List (List Nat)) :
    List Nat :=
  pngSigBytes ++ mkChunk tagIHDR (ihdrPayload w h bpc ct) ++
    (if ct = 3 then mkChunk tagPLTE pal else []) ++
    (payloads.map (fun pl => mkChunk tagIDAT pl)).flatten ++ mkChunk tagIEND []

/-- The byte stream that follows the header of the first IDAT chunk's frame,
for a tail list of IDAT payloads: the remaining IDAT chunk frames then IEND. -/
def chunksAfter (ps : List (List Nat)) : List Nat :=
  (ps.map (fun pl => mkChunk tagIDAT pl)).flatten ++ mkChunk tagIEND []

theorem readN_append (xs ys : List Nat) (n : Nat) (h : xs.length = n) :
    readN (xs ++ ys) n = .ok (xs, ys) := by
  unfold readN
  rw [if_pos (by simp [← h])]
  rw [List.take_left' h, List.drop_left' h]

theorem readFullRaw_append (xs ys : List Nat) (n : Nat) (h : xs.length = n) :
    readFullRaw (xs ++ ys) n = .ok (xs, ys) := by
  unfold readFullRaw
  rw [if_pos (by simp [← h])]
  rw [List.take_left' h, List.drop_left' h]

theorem be32_length (n : Nat) : (be32 n).length = 4 := rfl

theorem beUint_be32 (n : Nat) (h : n < 2 ^ 32) : beUint (be32 n) = n := by
  simp only [beUint, be32, List.foldl]
  omega

theorem readN_one (x : Nat) (l : List Nat) : readN (x :: l) 1 = .ok ([x], l) := by
  unfold readN
  simp

theorem parseHeader_ok (p : PngState) (w h bpc ct : Nat) (r : List Nat)
    (hin : p.input = ihdrPayload w h bpc ct ++ r)
    (hw : w < 2 ^ 32) (hh : h < 2 ^ 32) (hbpc : bpc ≤ 8) :
    parseHeader p = .ok { p with input := r, w := w, h := h, bpc := bpc, ct := ct } := by
  unfold parseHeader
  rw [hin]
  simp only [ihdrPayload, List.append_assoc, List.cons_append, List.nil_append]
  rw [readN_append (be32 w) _ 4 rfl]
  dsimp only
  rw [readN_append (be32 h) _ 4 rfl]
  dsimp only
  simp only [readN_one, List.headD_cons]
  rw [if_neg (by omega)]
  simp [beUint_be32 w hw, beUint_be32 h hh]

theorem parseChunk_ihdr (p : PngState) (w h bpc ct : Nat) (r : List Nat)
    (hin : p.input = mkChunk tagIHDR (ihdrPayload w h bpc ct) ++ r)
    (hw : w < 2 ^ 32) (hh : h < 2 ^ 32) (hbpc : bpc ≤ 8) :
    parseChunk p = .ok { p with state := stateHeader, readable := 13, input := r,
                                w := w, h := h, bpc := bpc, ct := ct } := by
  unfold parseChunk
  rw [hin]
  simp only [mkChunk, List.append_assoc]
  rw [readN_append (be32 (ihdrPayload w h bpc ct).length) _ 4 rfl]
  dsimp only
  rw [readN_append tagIHDR _ 4 rfl]
  dsimp only
  rw [if_neg (by decide), if_pos rfl]
  rw [parseHeader_ok _ w h bpc ct ([0, 0, 0, 0] ++ r) rfl hw hh hbpc]
  dsimp only
  rw [readN_append [0, 0, 0, 0] r 4 rfl]
  rw [show (ihdrPayload w h bpc ct).length = 13 from rfl]
  rw [show beUint (be32 13) = 13 by decide]

theorem parseChunk_idat (p : PngState) (len : Nat) (rest : List Nat)
    (hin : p.input = be32 len ++ tagIDAT ++ rest) (hlen : len < 2 ^ 32) :
    parseChunk p = .ok { p with state := stateData, readable := len, input := rest } := by
  unfold parseChunk
  rw [hin]
  simp only [List.append_assoc]
  rw [readN_append (be32 len) _ 4 rfl]
  dsimp only
  rw [readN_append tagIDAT _ 4 rfl]
  dsimp only
  rw [if_pos rfl, beUint_be32 len hlen]

theorem parseChunk_plte (p : PngState) (pal r : List Nat)
    (hin : p.input = mkChunk tagPLTE pal ++ r) (hlen : pal.length < 2 ^ 32) :
    parseChunk p = .ok { p with state := stateAnc, readable := pal.length,
                                pal := pal, input := r } := by
  unfold parseChunk
  rw [hin]
  simp only [mkChunk, List.append_assoc]
  rw [readN_append (be32 pal.length) _ 4 rfl]
  dsimp only
  rw [readN_append tagPLTE _ 4 rfl]
  dsimp only
  rw [if_neg (by decide), if_neg (by decide), if_pos rfl]
  unfold parsePalette
  dsimp only
  rw [beUint_be32 pal.length hlen]
  rw [readFullRaw_append pal _ pal.length rfl]
  dsimp only
  rw [readN_append [0, 0, 0, 0] r 4 rfl]

theorem parseChunk_iend (p : PngState) (r : List Nat)
    (hin : p.input = mkChunk tagIEND [] ++ r) :
    parseChunk p = .ok { p with state := stateEnd, readable := 0, input := r } := by
  unfold parseChunk
  rw [hin]
  simp only [mkChunk, List.append_assoc, List.nil_append]
  rw [readN_append (be32 ([] : List Nat).length) _ 4 rfl]
  dsimp only
  rw [readN_append tagIEND _ 4 rfl]
  dsimp only
  rw [if_neg (by decide), if_neg (by decide), if_neg (by decide), if_neg (by decide),
      if_neg (by decide), if_pos rfl]
  dsimp only
  rw [readN_append [0, 0, 0, 0] r 4 rfl]
  rfl

theorem parseSignature_ok (p : PngState) (r : List Nat)
    (hin : p.input = pngSigBytes ++ r) :
    parseSignature p = .ok { p with state := stateSignature, input := r } := by
  unfold parseSignature
  rw [hin, readN_append pngSigBytes r 8 rfl]
  simp

theorem parseSignature_eq (p : PngState) :
    parseSignature p =
      (if 8 ≤ p.input.length then
        (if p.input.take 8 = pngSigBytes then
          .ok { p with state := stateSignature, input := p.input.drop 8 }
        else .error .notPng)
      else .error .eof) := by
  unfold parseSignature readN
  by_cases h8 : 8 ≤ p.input.length <;> simp [h8]

theorem parseChunksFuel_done (fuel : Nat) (p : PngState) (target : Nat)
    (h : ¬ p.state < target) (hf : 0 < fuel) :
    parseChunksFuel fuel p target = .ok p := by
  cases fuel with
  | zero => omega
  | succ f => simp [parseChunksFuel, h]

theorem parseChunksFuel_step (fuel : Nat) (p : PngState) (target : Nat)
    (h : p.state < target) (hf : 0 < fuel) :
    parseChunksFuel fuel p target =
      (match parseChunk p with
       | .error e => .error e
       | .ok p1 => parseChunksFuel (fuel - 1) p1 target) := by
  cases fuel with
  | zero => omega
  | succ f => simp [parseChunksFuel, h]

theorem skipZeroFuel_stop (fuel : Nat) (p : PngState)
    (h : ¬ p.readable = 0) (hf : 0 < fuel) :
    skipZeroFuel fuel p = .ok p := by
  cases fuel with
  | zero => omega
  | succ f => simp [skipZeroFuel, h]

theorem skipZeroFuel_step (fuel : Nat) (p : PngState)
    (h : p.readable = 0) (hf : 0 < fuel) :
    skipZeroFuel fuel p =
      (match parseChunk p with
       | .error e => .error e
       | .ok p1 => skipZeroFuel (fuel - 1) p1) := by
  cases fuel with
  | zero => omega
  | succ f => simp [skipZeroFuel, h]

theorem readN_no_ovf (inp : List Nat) (n : Nat) :
    ¬ readN inp n = .error .idatOverflow := by
  unfold readN
  split <;> simp

theorem readFullRaw_no_ovf (inp : List Nat) (n : Nat) :
    ¬ readFullRaw inp n = .error .idatOverflow := by
  unfold readFullRaw
  split
  · simp
  · split <;> simp

theorem ignoreChunkFuel_no_ovf (fuel : Nat) :
    ∀ (inp : List Nat) (n : Nat),
      ¬ ignoreChunkFuel fuel inp n = .error .idatOverflow := by
  induction fuel with
  | zero =>
    intro inp n hc
    unfold ignoreChunkFuel at hc
    simp at hc
  | succ fuel ih =>
    intro inp n hc
    unfold ignoreChunkFuel at hc
    split at hc
    · simp at hc
    · split at hc
      · simp_all [readFullRaw_no_ovf]
      · exact ih _ _ hc

theorem ignoreChunk_no_ovf (n : Nat) (inp : List Nat) :
    ¬ ignoreChunk inp n = .error .idatOverflow :=
  ignoreChunkFuel_no_ovf _ _ _

theorem parseSignature_no_ovf (p : PngState) :
    ¬ parseSignature p = .error .idatOverflow := by
  intro hc
  unfold parseSignature at hc
  split at hc
  · simp_all [readN_no_ovf]
  · split at hc <;> simp_all

theorem parseHeader_no_ovf (p : PngState) :
    ¬ parseHeader p = .error .idatOverflow := by
  intro hc
  unfold parseHeader at hc
  split at hc
  · simp_all [readN_no_ovf]
  · split at hc
    · simp_all [readN_no_ovf]
    · split at hc
      · simp_all [readN_no_ovf]
      · split at hc
        · simp_all
        · split at hc
          · simp_all [readN_no_ovf]
          · split at hc
            · simp_all [readN_no_ovf]
            · split at hc
              · simp_all
              · split at hc
                · simp_all [readN_no_ovf]
                · split at hc
                  · simp_all
                  · split at hc
                    · simp_all [readN_no_ovf]
                    · split at hc <;> simp_all

theorem parsePalette_no_ovf (p : PngState) :
    ¬ parsePalette p = .error .idatOverflow := by
  intro hc
  unfold parsePalette at hc
  split at hc <;> simp_all [readFullRaw_no_ovf]

theorem parsetRNS_no_ovf (p : PngState) :
    ¬ parsetRNS p = .error .idatOverflow := by
  intro hc
  unfold parsetRNS at hc
  split at hc
  · simp_all [readFullRaw_no_ovf]
  · split at hc
    · split at hc <;> simp_all
    · split at hc
      · split at hc <;> simp_all
      · split at hc <;> simp_all

theorem parsepHYs_no_ovf (p : PngState) :
    ¬ parsepHYs p = .error .idatOverflow := by
  intro hc
  unfold parsepHYs at hc
  split at hc
  · simp_all [readN_no_ovf]
  · split at hc
    · simp_all [readN_no_ovf]
    · split at hc
      · simp_all [readN_no_ovf]
      · dsimp only at hc
        split at hc
        · split at hc <;> simp_all
        · simp_all

theorem parseChunk_no_ovf (p : PngState) :
    ¬ parseChunk p = .error .idatOverflow := by
  intro hc
  unfold parseChunk at hc
  split at hc
  · simp_all [readN_no_ovf]
  · split at hc
    · simp_all [readN_no_ovf]
    · dsimp only at hc
      split at hc
      · simp_all
      · split at hc
        · rename_i heq
          split at heq
          · simp_all [parseHeader_no_ovf]
          · split at heq
            · simp_all [parsePalette_no_ovf]
            · split at heq
              · simp_all [parsetRNS_no_ovf]
              · split at heq
                · simp_all [parsepHYs_no_ovf]
                · split at heq
                  · simp_all
                  · split at heq <;> simp_all [ignoreChunk_no_ovf]
        · split at hc <;> simp_all [readN_no_ovf]

theorem parseChunksFuel_no_ovf (fuel : Nat) (p : PngState) (target : Nat) :
    ¬ parseChunksFuel fuel p target = .error .idatOverflow := by
  induction fuel generalizing p with
  | zero => simp [parseChunksFuel]
  | succ f ih =>
    intro hc
    unfold parseChunksFuel at hc
    split at hc
    · split at hc
      · simp_all [parseChunk_no_ovf]
      · exact ih _ hc
    · simp at hc

theorem parseUntil_no_ovf (p : PngState) (target : Nat) :
    ¬ parseUntil p target = .error .idatOverflow := by
  intro hc
  unfold parseUntil at hc
  split at hc
  · rename_i heq
    split at heq
    · simp_all [parseSignature_no_ovf]
    · simp_all
  · exact parseChunksFuel_no_ovf _ _ _ hc

theorem skipZeroFuel_no_ovf (fuel : Nat) (p : PngState) :
    ¬ skipZeroFuel fuel p = .error .idatOverflow := by
  induction fuel generalizing p with
  | zero => simp [skipZeroFuel]
  | succ f ih =>
    intro hc
    unfold skipZeroFuel at hc
    split at hc
    · split at hc
      · simp_all [parseChunk_no_ovf]
      · exact ih _ hc
    · simp at hc

/-- C10: the "IDAT chunk length overflow" branch of `pngStream.Read` is dead
code: `readable` is a `uint32`, its negativity test never fires, and no read
ever returns that error, for every state and caller buffer size. -/
theorem c10_idat_overflow_unreachable (p : PngState) (b : Nat) :
    (sread p b).2.1 ≠ some .idatOverflow := by
  unfold sread
  split
  · simp
  · split
    · rename_i e heq
      intro hc
      simp only [Option.some.injEq] at hc
      subst hc
      exact parseUntil_no_ovf _ _ heq
    · rename_i p1 heq1
      split
      · rename_i hneg
        omega
      · split
        · rename_i e heq2
          intro hc
          simp only [Option.some.injEq] at hc
          subst hc
          exact skipZeroFuel_no_ovf _ _ heq2
        · rename_i p2 heq2
          dsimp only
          split
          · split
            · rename_i e heq3
              intro hc
              simp only [Option.some.injEq] at hc
              subst hc
              exact readN_no_ovf _ _ heq3
            · simp
          · split <;> simp

theorem readN_ok (inp : List Nat) (n : Nat) (bs rest : List Nat)
    (h : readN inp n = .ok (bs, rest)) :
    bs = inp.take n ∧ rest = inp.drop n ∧ n ≤ inp.length := by
  unfold readN at h
  split at h
  · simp only [Except.ok.injEq, Prod.mk.injEq] at h
    exact ⟨h.1.symm, h.2.symm, by assumption⟩
  · simp at h

theorem parseHeader_state (p q : PngState) (h : parseHeader p = .ok q) :
    q.state = p.state := by
  unfold parseHeader at h
  split at h
  · simp at h
  · split at h
    · simp at h
    · split at h
      · simp at h
      · split at h
        · simp at h
        · split at h
          · simp at h
          · split at h
            · simp at h
            · split at h
              · simp at h
              · split at h
                · simp at h
                · split at h
                  · simp at h
                  · split at h
                    · simp at h
                    · split at h
                      · simp at h
                      · simp only [Except.ok.injEq] at h
                        subst h
                        rfl

theorem parsePalette_state (p q : PngState) (h : parsePalette p = .ok q) :
    q.state = p.state := by
  unfold parsePalette at h
  split at h
  · simp at h
  · simp only [Except.ok.injEq] at h
    subst h
    rfl

theorem parsetRNS_state (p q : PngState) (h : parsetRNS p = .ok q) :
    q.state = p.state := by
  unfold parsetRNS at h
  split at h
  · simp at h
  · split at h
    · split at h
      · simp only [Except.ok.injEq] at h
        subst h
        rfl
      · simp at h
    · split at h
      · split at h
        · simp only [Except.ok.injEq] at h
          subst h
          rfl
        · simp at h
      · split at h
        · simp only [Except.ok.injEq] at h
          subst h
          rfl
        · simp only [Except.ok.injEq] at h
          subst h
          rfl

theorem parsepHYs_state (p q : PngState) (h : parsepHYs p = .ok q) :
    q.state = p.state := by
  unfold parsepHYs at h
  split at h
  · simp at h
  · split at h
    · simp at h
    · split at h
      · simp at h
      · dsimp only at h
        split at h
        · split at h
          · simp only [Except.ok.injEq] at h
            subst h
            rfl
          · simp only [Except.ok.injEq] at h
            subst h
            rfl
        · simp only [Except.ok.injEq] at h
          subst h
          rfl

theorem c7_state_transition (p p1 : PngState) (h : parseChunk p = .ok p1) :
    p1.state = chunkTarget ((p.input.drop 4).take 4) p.state := by
  unfold parseChunk at h
  split at h
  · simp at h
  · rename_i pr1 lb r1 heq1
    split at h
    · simp at h
    · rename_i pr2 tg r2 heq2
      obtain ⟨hlb, hr1, -⟩ := readN_ok _ _ _ _ heq1
      obtain ⟨htg, hr2, -⟩ := readN_ok _ _ _ _ heq2
      have htg2 : tg = (p.input.drop 4).take 4 := by rw [htg, hr1]
      dsimp only at h
      split at h
      · rename_i hidat
        simp only [Except.ok.injEq] at h
        subst h
        simp [chunkTarget, ← htg2, hidat, tagIHDR, tagIDAT, tagPLTE, tagTRNS, tagPHYS, tagIEND, stateInit, stateSignature, stateHeader, stateAnc, stateData, stateEnd]
      · rename_i hnidat
        split at h
        · simp at h
        · rename_i p2 heqA
          split at h
          · simp at h
          · rename_i pr3 cb r3 heq3
            simp only [Except.ok.injEq] at h
            subst h
            split at heqA
            · rename_i hihdr
              have := parseHeader_state _ _ heqA
              simp only [this]
              simp [chunkTarget, ← htg2, hihdr, hnidat, tagIHDR, tagIDAT, tagPLTE, tagTRNS, tagPHYS, tagIEND, stateInit, stateSignature, stateHeader, stateAnc, stateData, stateEnd]
            · rename_i hnihdr
              split at heqA
              · rename_i hplte
                have := parsePalette_state _ _ heqA
                simp only [this]
                simp [chunkTarget, ← htg2, hplte, hnidat, hnihdr, tagIHDR, tagIDAT, tagPLTE, tagTRNS, tagPHYS, tagIEND, stateInit, stateSignature, stateHeader, stateAnc, stateData, stateEnd]
              · rename_i hnplte
                split at heqA
                · rename_i htrns
                  have := parsetRNS_state _ _ heqA
                  simp only [this]
                  simp [chunkTarget, ← htg2, htrns, hnidat, hnihdr, hnplte, tagIHDR, tagIDAT, tagPLTE, tagTRNS, tagPHYS, tagIEND, stateInit, stateSignature, stateHeader, stateAnc, stateData, stateEnd]
                · rename_i hntrns
                  split at heqA
                  · rename_i hphys
                    have := parsepHYs_state _ _ heqA
                    simp only [this]
                    simp [chunkTarget, ← htg2, hphys, hnidat, hnihdr, hnplte, hntrns, tagIHDR, tagIDAT, tagPLTE, tagTRNS, tagPHYS, tagIEND, stateInit, stateSignature, stateHeader, stateAnc, stateData, stateEnd]
                  · rename_i hnphys
                    split at heqA
                    · rename_i hiend
                      simp only [Except.ok.injEq] at heqA
                      subst heqA
                      simp [chunkTarget, ← htg2, hiend, hnidat, hnihdr, hnplte, hntrns, hnphys, tagIHDR, tagIDAT, tagPLTE, tagTRNS, tagPHYS, tagIEND, stateInit, stateSignature, stateHeader, stateAnc, stateData, stateEnd]
                    · rename_i hniend
                      split at heqA
                      · simp at heqA
                      · simp only [Except.ok.injEq] at heqA
                        subst heqA
                        simp only [← htg2, chunkTarget]
                        rw [if_neg hnidat, if_neg hnihdr,
                            if_neg (by simp [hnplte, hntrns, hnphys]), if_neg hniend]

def c7bytes : List Nat :=
  pngSigBytes ++ mkChunk tagPLTE [1, 2, 3] ++
    mkChunk tagIHDR (ihdrPayload 1 1 8 3) ++ mkChunk tagIDAT [5]

/-- C7 counterexample: on the stream `c7bytes`, whose chunks arrive out of
the standard order (PLTE before IHDR), the decode instance's state trace is
[Signature, Ancillary, Header, Data]: the second dispatch moves the state
from Ancillary (3) BACK to Header (2 < 3), refuting monotonicity. -/
theorem c7_counterexample :
    stateTrace c7bytes 3 = [stateSignature, stateAnc, stateHeader, stateData] ∧
    stateHeader < stateAnc := ⟨rfl, by decide⟩

theorem c7_witness :
    ({ input := [5, 0, 0, 0, 0], state := stateData, readable := 1 } : PngState).state =
      chunkTarget (((mkChunk tagIDAT [5]).drop 4).take 4) stateSignature :=
  c7_state_transition { input := mkChunk tagIDAT [5], state := stateSignature } _ rfl

/-- C9: `parsetRNS` is not total in the declared payload length: a tRNS
chunk frame of declared length 0 under color type 0, and one of declared
length 5 under color type 2, make the code index past the end of the payload
(`t[1]` resp. `t[5]`) — in Go a runtime out-of-range panic (`oobPanic`), not
a FormatError. -/
theorem c9_trns_out_of_bounds :
    parseChunk { input := mkChunk tagTRNS [], ct := 0, state := stateAnc } =
      .error .oobPanic ∧
    parseChunk { input := mkChunk tagTRNS [0, 0, 0, 0, 0], ct := 2, state := stateAnc } =
      .error .oobPanic := ⟨rfl, rfl⟩

/-- C3 counterexample: a source that ends after 3 of the 8 signature bytes
is reported as a clean end-of-stream (`next` converts `io.ErrUnexpectedEOF`
to `io.EOF`), not as the signature FormatError the claim requires for every
signature failure other than a fully empty stream. -/
theorem c3_counterexample :
    parseSignature { input := [137, 80, 78] } = .error .eof ∧
    PngErr.eof ≠ PngErr.notPng := ⟨rfl, by decide⟩

/-- C3 amended: on the very first read, an entirely empty stream AND any
stream shorter than the 8 signature bytes yield clean end-of-stream; only a
full 8 bytes differing from the magic yield the FormatError
"not a PNG buffer"; a correct signature is consumed and moves the state to
Signature. -/
theorem c3_signature_errors (p : PngState) :
    (p.input = [] → parseSignature p = .error .eof) ∧
    (p.input.length < 8 → parseSignature p = .error .eof) ∧
    (8 ≤ p.input.length → p.input.take 8 ≠ pngSigBytes →
      parseSignature p = .error .notPng) ∧
    (8 ≤ p.input.length → p.input.take 8 = pngSigBytes →
      parseSignature p = .ok { p with state := stateSignature,
                                      input := p.input.drop 8 }) := by
  rw [parseSignature_eq]
  refine ⟨?_, ?_, ?_, ?_⟩
  · intro he
    rw [if_neg (by simp [he])]
  · intro hl
    rw [if_neg (by omega)]
  · intro h8 hs
    rw [if_pos h8, if_neg hs]
  · intro h8 hs
    rw [if_pos h8, if_pos hs]

theorem c3_witness :
    parseSignature { input := ([] : List Nat) } = .error .eof :=
  (c3_signature_errors { input := [] }).1 rfl

/-- C8: for every pHYs chunk payload (x, y, unit), the dpi field is assigned
exactly when resolution extraction was requested and x = y; unit 1 divides
by 39.3701 (pixels/meter), any other unit stores x as-is; x ≠ y leaves dpi
untouched regardless of the flag.  In particular 2835 / 39.3701 is within
0.01 of 72. -/
theorem c8_phys_dpi (p : PngState) (x y u : Nat) (rest : List Nat)
    (hx : x < 2 ^ 32) (hy : y < 2 ^ 32)
    (hin : p.input = be32 x ++ be32 y ++ u :: rest) :
    parsepHYs p = .ok { p with input := rest,
                               dpi := if x = y ∧ p.readdpi = true then
                                 some (if u = 1 then (x : ℚ) / inchesPerMeterQ else (x : ℚ))
                               else p.dpi } ∧
    |(2835 : ℚ) / inchesPerMeterQ - 72| < 1 / 100 := by
  constructor
  · unfold parsepHYs
    rw [hin]
    simp only [List.append_assoc]
    rw [readN_append (be32 x) _ 4 rfl]
    dsimp only
    rw [readN_append (be32 y) _ 4 rfl]
    dsimp only
    rw [readN_one]
    dsimp only
    rw [beUint_be32 x hx, beUint_be32 y hy]
    simp only [List.headD_cons]
    by_cases hxy : x = y ∧ p.readdpi = true
    · rw [if_pos hxy, if_pos hxy]
      by_cases hu : u = 1
      · rw [if_pos hu, if_pos hu]
      · rw [if_neg hu, if_neg hu]
    · rw [if_neg hxy, if_neg hxy]
  · rw [abs_sub_lt_iff]
    constructor <;> norm_num [inchesPerMeterQ]

theorem c8_witness :
    parsepHYs { input := be32 2835 ++ be32 2835 ++ [1], readdpi := true } =
      .ok { input := [], readdpi := true,
            dpi := some ((2835 : ℚ) / inchesPerMeterQ) } ∧
    |(2835 : ℚ) / inchesPerMeterQ - 72| < 1 / 100 := by
  have h := c8_phys_dpi { input := be32 2835 ++ be32 2835 ++ [1], readdpi := true }
      2835 2835 1 [] (by norm_num) (by norm_num) rfl
  simpa using h

def c2sep : AlphaSep := newAlphaSeparator [0, 10, 20] 1 1 1

/-- C2 counterexample: at input offset 0 (≡ 0 mod stride) the row's
filter-type byte (here 0, with input [0, 10, 20], w = h = chs = 1) is
forwarded to the caller AND written into the internal alpha compressor:
after the first read the compressor has received [0], refuting "never
writes it into the internal alpha compressor" and "only alpha sample bytes
are routed to the alpha compressor". -/
theorem c2_counterexample :
    c2sep.off % c2sep.stride = 0 ∧
    (aread c2sep 1).1 = [0] ∧
    (aread c2sep 1).2.2.alphaAcc = [0] ∧
    ([0] : List Nat) ≠ [] := ⟨rfl, rfl, rfl, by decide⟩

/-- C2 amended: at offset ≡ 0 (mod stride) the filter byte is forwarded to
the caller untouched and is ALSO duplicated into the alpha compressor; at
every other offset, when a full pixel remainder is available, exactly the
byte at channel position C (the alpha sample) is appended to the compressor
and the color samples are forwarded. -/
theorem c2_alpha_routing (a : AlphaSep) (b : Nat)
    (hb : 1 ≤ b) (hoff : a.off < a.h * a.stride) :
    (a.off % a.stride = 0 → a.input ≠ [] →
      (aread a b).1 = a.input.take 1 ∧
      (aread a b).2.2.alphaAcc = a.alphaAcc ++ a.input.take 1) ∧
    (∀ c, a.off % a.stride ≠ 0 → c = (a.off % a.stride - 1) % (a.chs + 1) →
      a.chs + 1 - c ≤ b → a.chs + 1 - c ≤ a.input.length →
      (aread a b).1 = a.input.take (a.chs - c) ∧
      (aread a b).2.2.alphaAcc =
        a.alphaAcc ++ ((a.input.take (a.chs + 1 - c)).drop (a.chs - c))) := by
  constructor
  · intro hj hne
    unfold aread
    rw [if_neg (by omega), if_neg (by omega), if_pos hj]
    unfold readPaletteIndex readFullRaw
    rw [if_pos (show 1 ≤ a.input.length from List.length_pos.mpr hne)]
    constructor <;> rfl
  · intro c hj hc hcb hcl
    unfold aread
    rw [if_neg (by omega), if_neg (by omega), if_neg hj]
    rw [← hc]
    rw [if_neg (by omega)]
    unfold readFullRaw
    rw [if_pos hcl]
    dsimp only
    constructor
    · rw [List.take_take]
      congr 1
      omega
    · rfl

theorem c2_witness :
    (aread c2sep 1).1 = c2sep.input.take 1 ∧
    (aread c2sep 1).2.2.alphaAcc = c2sep.alphaAcc ++ c2sep.input.take 1 :=
  (c2_alpha_routing c2sep 1 (by decide) (by decide)).1 (by decide) (by decide)

def c6sep : AlphaSep := newAlphaSeparator [0, 1, 2, 3, 4] 1 1 3

/-- C6 counterexample: for w = h = 1, chs = 3 (color type 6) and input
[0, 1, 2, 3, 4], the second read call returns THREE bytes to the caller
(not at most one) and transfers FOUR bytes from the upstream stream in a
single `io.ReadFull` (not single-byte transfers). -/
theorem c6_counterexample :
    ((aread (aread c6sep 5).2.2 5).1).length = 3 ∧
    ¬ ((3 : Nat) ≤ 1) ∧
    (aread c6sep 5).2.2.input.length -
        (aread (aread c6sep 5).2.2 5).2.2.input.length = 4 :=
  ⟨rfl, by decide, rfl⟩

theorem readFullRaw_ok (inp : List Nat) (n : Nat) (bs rest : List Nat)
    (h : readFullRaw inp n = .ok (bs, rest)) :
    bs = inp.take n ∧ rest = inp.drop n ∧ n ≤ inp.length := by
  unfold readFullRaw at h
  split at h
  · simp only [Except.ok.injEq, Prod.mk.injEq] at h
    exact ⟨h.1.symm, h.2.symm, by assumption⟩
  · split at h <;> simp at h

theorem readFullRaw_error_len (inp : List Nat) (n : Nat) (e : PngErr)
    (h : readFullRaw inp n = .error e) : inp.length < n := by
  unfold readFullRaw at h
  split at h
  · simp at h
  · omega

/-- C6 amended: one call to `alphaSeparator.Read` returns at most C (= chs)
output bytes — exactly one at a row boundary, up to C inside a pixel — and
transfers at most chs + 1 bytes (the remainder of one pixel) from the
upstream stream, regardless of the caller's buffer size; callers must still
loop. -/
theorem c6_read_bounds (a : AlphaSep) (b : Nat) (hchs : 1 ≤ a.chs) :
    (aread a b).1.length ≤ a.chs ∧
    a.input.length - (aread a b).2.2.input.length ≤ a.chs + 1 := by
  have hclt : (a.off % a.stride - 1) % (a.chs + 1) < a.chs + 1 :=
    Nat.mod_lt _ (Nat.succ_pos _)
  unfold aread
  split
  · simp
  · split
    · simp
    · dsimp only
      split
      · unfold readPaletteIndex
        split
        · simp
        · rename_i bs rest heq
          obtain ⟨hbs, hrest, hle⟩ := readFullRaw_ok _ _ _ _ heq
          subst hbs
          subst hrest
          dsimp only
          simp only [List.length_take, List.length_drop]
          omega
      · split
        · simp
        · split
          · rename_i e heq
            have hlen := readFullRaw_error_len _ _ _ heq
            dsimp only
            simp only [List.length_take]
            omega
          · rename_i bs rest heq
            obtain ⟨hbs, hrest, hle⟩ := readFullRaw_ok _ _ _ _ heq
            subst hbs
            subst hrest
            dsimp only
            simp only [List.length_take, List.length_drop]
            omega

theorem c6_witness :
    (aread c6sep 5).1.length ≤ c6sep.chs ∧
    c6sep.input.length - (aread c6sep 5).2.2.input.length ≤ c6sep.chs + 1 :=
  c6_read_bounds c6sep 5 (by decide)

theorem c1_parseUntil (payload rest : List Nat) (hlen : payload.length < 2 ^ 32) :
    parseUntil { input := pngSigBytes ++ (mkChunk tagIHDR (ihdrPayload 1 1 8 3) ++
                   (be32 payload.length ++ (tagIDAT ++ (payload ++ rest)))),
                 readdpi := true } stateData =
      .ok { input := payload ++ rest, state := stateData,
            readable := payload.length, readdpi := true,
            w := 1, h := 1, bpc := 8, ct := 3 } := by
  unfold parseUntil
  dsimp only [stateInit]
  rw [if_pos rfl]
  rw [parseSignature_ok _ _ rfl]
  dsimp only
  rw [parseChunksFuel_step _ _ _ (by dsimp only [stateSignature, stateData]; omega) (Nat.succ_pos _)]
  rw [parseChunk_ihdr _ 1 1 8 3
      (be32 payload.length ++ (tagIDAT ++ (payload ++ rest))) rfl
      (by norm_num) (by norm_num) (by norm_num)]
  dsimp only
  have hlen1 : 0 < (mkChunk tagIHDR (ihdrPayload 1 1 8 3) ++
      (be32 payload.length ++ (tagIDAT ++ (payload ++ rest)))).length + 1 - 1 := by
    simp [mkChunk, ihdrPayload]
  rw [parseChunksFuel_step _ _ _ (by dsimp only [stateHeader, stateData]; omega) hlen1]
  rw [parseChunk_idat _ payload.length (payload ++ rest)
      (by rw [List.append_assoc]) hlen]
  dsimp only
  rw [parseChunksFuel_done _ _ _ (by dsimp only [stateData]; omega) (by simp [mkChunk, ihdrPayload]; omega)]

def c1bytes : List Nat :=
  pngSigBytes ++ mkChunk tagIHDR (ihdrPayload 1 1 8 3) ++
    mkChunk tagIDAT [42] ++ mkChunk tagIEND []

/-- C1 counterexample: on a color-type-3 stream with no PLTE chunk the
decode entry point sets the missing-palette FormatError, but it does NOT
abort and return no descriptor: a descriptor is still constructed and
returned alongside the error (the assignment to `f.err` is not followed by
a `return`). -/
theorem c1_counterexample :
    (parsepngstream c1bytes true).err = some .missingPalette ∧
    (parsepngstream c1bytes true).info.isSome = true := ⟨rfl, rfl⟩

/-- C1 amended: for every color-type-3 stream with no PLTE chunk, decode
sets the FormatError "missing palette" and does so before any IDAT payload
byte is read (the remaining stream still starts with the whole payload) —
but it does not abort: a descriptor (Indexed, empty palette) is still built
and returned. -/
theorem c1_missing_palette (payload rest : List Nat)
    (hlen : payload.length < 2 ^ 32) :
    (parsepngstream (pngSigBytes ++ (mkChunk tagIHDR (ihdrPayload 1 1 8 3) ++
        (be32 payload.length ++ (tagIDAT ++ (payload ++ rest))))) true).err =
      some .missingPalette ∧
    (parsepngstream (pngSigBytes ++ (mkChunk tagIHDR (ihdrPayload 1 1 8 3) ++
        (be32 payload.length ++ (tagIDAT ++ (payload ++ rest))))) true).info =
      some { w := 1, h := 1, cs := "Indexed", bpc := 8, colorVal := 1,
             pal := [], trns := [], alphaPipeline := false } ∧
    (parsepngstream (pngSigBytes ++ (mkChunk tagIHDR (ihdrPayload 1 1 8 3) ++
        (be32 payload.length ++ (tagIDAT ++ (payload ++ rest))))) true).stream.input =
      payload ++ rest := by
  unfold parsepngstream
  dsimp only
  rw [c1_parseUntil payload rest hlen]
  dsimp only
  norm_num [pngColorSpace]

theorem c1_witness :
    (parsepngstream (pngSigBytes ++ (mkChunk tagIHDR (ihdrPayload 1 1 8 3) ++
        (be32 ([42] : List Nat).length ++ (tagIDAT ++ ([42] ++ [0, 0, 0, 0]))))) true).err =
      some .missingPalette ∧
    (parsepngstream (pngSigBytes ++ (mkChunk tagIHDR (ihdrPayload 1 1 8 3) ++
        (be32 ([42] : List Nat).length ++ (tagIDAT ++ ([42] ++ [0, 0, 0, 0]))))) true).info =
      some { w := 1, h := 1, cs := "Indexed", bpc := 8, colorVal := 1,
             pal := [], trns := [], alphaPipeline := false } ∧
    (parsepngstream (pngSigBytes ++ (mkChunk tagIHDR (ihdrPayload 1 1 8 3) ++
        (be32 ([42] : List Nat).length ++ (tagIDAT ++ ([42] ++ [0, 0, 0, 0]))))) true).stream.input =
      [42] ++ [0, 0, 0, 0] :=
  c1_missing_palette [42] [0, 0, 0, 0] (by norm_num)

theorem readFullRaw_cons (x : Nat) (l : List Nat) :
    readFullRaw (x :: l) 1 = .ok ([x], l) := by
  unfold readFullRaw
  simp

theorem aread_eof (a : AlphaSep) (b : Nat) (hb : ¬ b = 0)
    (hoff : a.h * a.stride ≤ a.off) :
    aread a b = ([], some .eof, a) := by
  unfold aread
  rw [if_neg hb, if_pos hoff]

theorem aread_filter (a : AlphaSep) (x : Nat) (r : List Nat)
    (hin : a.input = x :: r) (hoff : a.off < a.h * a.stride)
    (hj : a.off % a.stride = 0) :
    aread a (a.chs + 1) =
      ([x], none, { a with input := r, off := a.off + 1,
                           alphaAcc := a.alphaAcc ++ [x] }) := by
  unfold aread
  rw [if_neg (by omega), if_neg (by omega)]
  dsimp only
  rw [if_pos hj]
  unfold readPaletteIndex
  rw [hin, readFullRaw_cons]

theorem aread_pixel (a : AlphaSep)
    (hoff : a.off < a.h * a.stride)
    (hlen : a.chs + 1 ≤ a.input.length)
    (hj : ¬ a.off % a.stride = 0)
    (hc : (a.off % a.stride - 1) % (a.chs + 1) = 0) :
    aread a (a.chs + 1) =
      (a.input.take a.chs, none,
       { a with input := a.input.drop (a.chs + 1),
                off := a.off + (a.chs + 1),
                alphaAcc := a.alphaAcc ++
                  ((a.input.take (a.chs + 1)).drop a.chs) }) := by
  unfold aread
  rw [if_neg (by omega), if_neg (by omega)]
  dsimp only
  rw [if_neg hj, hc]
  rw [if_neg (by omega)]
  unfold readFullRaw
  rw [if_pos (by omega)]
  dsimp only
  rw [Nat.sub_zero]
  rw [show a.chs + 1 - 1 = a.chs from rfl]
  rw [List.take_take]
  rw [Nat.min_eq_left (by omega), Nat.sub_zero]

theorem mod_add_exact (off d s : Nat) (h : off % s + d < s) :
    (off + d) % s = off % s + d := by
  conv_lhs => rw [← Nat.div_add_mod off s]
  rw [Nat.add_assoc, Nat.mul_add_mod]
  exact Nat.mod_eq_of_lt h

theorem mod_add_zero (off d s : Nat) (h : off % s + d = s) :
    (off + d) % s = 0 := by
  conv_lhs => rw [← Nat.div_add_mod off s]
  rw [Nat.add_assoc, Nat.mul_add_mod, h]
  exact Nat.mod_self s

theorem drainGo_succ (fuel : Nat) (a : AlphaSep) :
    drainGo (fuel + 1) a =
      (match aread a (a.chs + 1) with
       | (bs, some e, a1) => (bs, e, a1)
       | (bs, none, a1) =>
         (bs ++ (drainGo fuel a1).1,
          (drainGo fuel a1).2.1, (drainGo fuel a1).2.2)) := rfl

theorem demuxPixels_succ (chs k : Nat) (l : List Nat) :
    demuxPixels chs (k + 1) l =
      (l.take chs ++ (demuxPixels chs k (l.drop (chs + 1))).1,
       (l.drop chs).take 1 ++ (demuxPixels chs k (l.drop (chs + 1))).2) := rfl

theorem drainGo_pixels (k : Nat) :
    ∀ (fuel : Nat) (a : AlphaSep) (m : Nat),
    a.stride = 1 + (a.chs + 1) * a.w →
    m + k = a.w →
    (0 < k → a.off % a.stride = 1 + m * (a.chs + 1)) →
    a.off + k * (a.chs + 1) ≤ a.h * a.stride →
    k * (a.chs + 1) ≤ a.input.length →
    k ≤ fuel →
    drainGo fuel a =
      ((demuxPixels a.chs k a.input).1 ++
        (drainGo (fuel - k)
          { a with input := a.input.drop (k * (a.chs + 1)),
                   off := a.off + k * (a.chs + 1),
                   alphaAcc := a.alphaAcc ++ (demuxPixels a.chs k a.input).2 }).1,
       (drainGo (fuel - k)
          { a with input := a.input.drop (k * (a.chs + 1)),
                   off := a.off + k * (a.chs + 1),
                   alphaAcc := a.alphaAcc ++ (demuxPixels a.chs k a.input).2 }).2) := by
  induction k with
  | zero =>
    intro fuel a m hstr hm hmod hoffrow hlen hfuel
    simp [demuxPixels]
  | succ k ih =>
    intro fuel a m hstr hm hmod hoffrow hlen hfuel
    obtain ⟨f, rfl⟩ : ∃ f, fuel = f + 1 := ⟨fuel - 1, by omega⟩
    have hd : 0 < a.chs + 1 := Nat.succ_pos _
    have hmulS : (k + 1) * (a.chs + 1) = k * (a.chs + 1) + (a.chs + 1) := by ring
    have hposS : 0 < (k + 1) * (a.chs + 1) := Nat.mul_pos (Nat.succ_pos _) hd
    have hmod1 : a.off % a.stride = 1 + m * (a.chs + 1) := hmod (Nat.succ_pos _)
    have hmulM : (m + 1) * (a.chs + 1) = m * (a.chs + 1) + (a.chs + 1) := by ring
    have hoff : a.off < a.h * a.stride := by omega
    have hjne : ¬ a.off % a.stride = 0 := by omega
    have hcc : (a.off % a.stride - 1) % (a.chs + 1) = 0 := by
      rw [hmod1, show 1 + m * (a.chs + 1) - 1 = m * (a.chs + 1) from by omega]
      exact Nat.mul_mod_left _ _
    have hlen1 : a.chs + 1 ≤ a.input.length := by omega
    rw [drainGo_succ, aread_pixel a hoff hlen1 hjne hcc]
    dsimp only
    have hcomm : (a.chs + 1) * a.w = a.w * (a.chs + 1) := Nat.mul_comm _ _
    have hmodnext : 0 < k → (a.off + (a.chs + 1)) % a.stride = 1 + (m + 1) * (a.chs + 1) := by
      intro hk
      have hm2 : (m + 2) * (a.chs + 1) ≤ a.w * (a.chs + 1) :=
        Nat.mul_le_mul_right _ (by omega)
      have hm2e : (m + 2) * (a.chs + 1) = m * (a.chs + 1) + 2 * (a.chs + 1) := by ring
      have h2e : 2 * (a.chs + 1) = (a.chs + 1) + (a.chs + 1) := by ring
      rw [mod_add_exact _ _ _ (by omega), hmod1]
      omega
    have := ih f { a with input := a.input.drop (a.chs + 1),
                          off := a.off + (a.chs + 1),
                          alphaAcc := a.alphaAcc ++
                            ((a.input.take (a.chs + 1)).drop a.chs) } (m + 1)
      (by dsimp only; exact hstr) (by dsimp only; omega)
      (by dsimp only; exact hmodnext)
      (by dsimp only; omega)
      (by dsimp only; simp only [List.length_drop]; omega)
      (by omega)
    dsimp only at this
    rw [this]
    have hinp : (a.input.drop (a.chs + 1)).drop (k * (a.chs + 1)) =
        a.input.drop ((k + 1) * (a.chs + 1)) := by
      rw [List.drop_drop]
      congr 1
      ring
    have hoff2 : a.off + (a.chs + 1) + k * (a.chs + 1) = a.off + (k + 1) * (a.chs + 1) := by
      ring
    have hacc : (a.input.take (a.chs + 1)).drop a.chs = (a.input.drop a.chs).take 1 := by
      rw [List.drop_take]
      congr 1
      omega
    rw [hinp, hoff2, hacc, show f + 1 - (k + 1) = f - k from by omega,
        demuxPixels_succ]
    simp only [List.append_assoc]

theorem demuxRows_zero (chs w : Nat) (l : List Nat) :
    demuxRows chs w 0 l = ([], []) := rfl

theorem demuxRows_succ (chs w r : Nat) (l : List Nat) :
    demuxRows chs w (r + 1) l =
      (l.take 1 ++ (demuxPixels chs w (l.drop 1)).1 ++
         (demuxRows chs w r (l.drop (1 + (chs + 1) * w))).1,
       l.take 1 ++ (demuxPixels chs w (l.drop 1)).2 ++
         (demuxRows chs w r (l.drop (1 + (chs + 1) * w))).2) := rfl

theorem drainGo_rows (r : Nat) :
    ∀ (fuel : Nat) (a : AlphaSep),
    a.stride = 1 + (a.chs + 1) * a.w →
    r ≤ a.h →
    a.off = (a.h - r) * a.stride →
    a.input.length = r * a.stride →
    r * (1 + a.w) + 1 ≤ fuel →
    drainGo fuel a =
      ((demuxRows a.chs a.w r a.input).1, .eof,
       { a with input := [], off := a.h * a.stride,
                alphaAcc := a.alphaAcc ++ (demuxRows a.chs a.w r a.input).2 }) := by
  induction r with
  | zero =>
    intro fuel a hstr hr hoff hlen hfuel
    obtain ⟨f, rfl⟩ : ∃ f, fuel = f + 1 := ⟨fuel - 1, by omega⟩
    have hz : 0 * a.stride = 0 := by ring
    have hz2 : (a.h - 0) = a.h := by omega
    have hnil : a.input = [] := List.eq_nil_of_length_eq_zero (by omega)
    have hoffeq : a.off = a.h * a.stride := by
      rw [hoff, hz2]
    rw [drainGo_succ, aread_eof a _ (by omega) (by omega), demuxRows_zero]
    dsimp only
    rw [List.append_nil, ← hnil, ← hoffeq]
  | succ r ih =>
    intro fuel a hstr hr hoff hlen hfuel
    obtain ⟨f, rfl⟩ : ∃ f, fuel = f + 1 := ⟨fuel - 1, by omega⟩
    have hd : 0 < a.chs + 1 := Nat.succ_pos _
    have hcomm : (a.chs + 1) * a.w = a.w * (a.chs + 1) := Nat.mul_comm _ _
    have hstridepos : 0 < a.stride := by omega
    have hrs : (r + 1) * a.stride = r * a.stride + a.stride := by ring
    have hlenpos : 0 < a.input.length := by omega
    obtain ⟨x, tl, hins⟩ : ∃ x tl, a.input = x :: tl := by
      cases hinp : a.input with
      | nil => rw [hinp] at hlenpos; simp at hlenpos
      | cons y ys => exact ⟨y, ys, rfl⟩
    have htl : tl.length = r * a.stride + (a.chs + 1) * a.w := by
      have : a.input.length = tl.length + 1 := by rw [hins]; rfl
      omega
    have hq : a.h - (r + 1) < a.h := by omega
    have he1 : a.h - (r + 1) + 1 = a.h - r := by omega
    have he4 : (a.h - r) * a.stride = (a.h - (r + 1)) * a.stride + a.stride := by
      rw [← he1]; ring
    have he5 : (a.h - r) * a.stride ≤ a.h * a.stride :=
      Nat.mul_le_mul_right _ (by omega)
    have hoffmod : a.off % a.stride = 0 := by rw [hoff]; exact Nat.mul_mod_left _ _
    have hofflt : a.off < a.h * a.stride := by
      rw [hoff]
      exact (Nat.mul_lt_mul_right hstridepos).mpr hq
    rw [drainGo_succ, aread_filter a x tl hins hofflt hoffmod]
    dsimp only
    have hrw : (r + 1) * (1 + a.w) = r * (1 + a.w) + 1 + a.w := by ring
    have hz0 : 0 * (a.chs + 1) = 0 := by ring
    have hpix := drainGo_pixels a.w f
      { a with input := tl, off := a.off + 1, alphaAcc := a.alphaAcc ++ [x] } 0
      (by dsimp only; exact hstr) (by dsimp only; omega)
      (by
        dsimp only
        intro hw
        have hwd : 0 < (a.chs + 1) * a.w := Nat.mul_pos hd hw
        rw [mod_add_exact _ _ _ (by omega), hoffmod]
        omega)
      (by dsimp only; omega)
      (by dsimp only; omega)
      (by omega)
    dsimp only at hpix
    rw [hpix]
    have hih := ih (f - a.w)
      { a with input := tl.drop (a.w * (a.chs + 1)),
               off := a.off + 1 + a.w * (a.chs + 1),
               alphaAcc := (a.alphaAcc ++ [x]) ++
                 (demuxPixels a.chs a.w tl).2 }
      (by dsimp only; exact hstr) (by dsimp only; omega)
      (by dsimp only; omega)
      (by dsimp only; simp only [List.length_drop]; omega)
      (by dsimp only; omega)
    dsimp only at hih
    rw [hih]
    dsimp only
    rw [demuxRows_succ]
    dsimp only
    have hdrop1 : a.input.drop 1 = tl := by rw [hins]; rfl
    have htake1 : a.input.take 1 = [x] := by rw [hins]; rfl
    have hdropS : a.input.drop (1 + (a.chs + 1) * a.w) = tl.drop (a.w * (a.chs + 1)) := by
      rw [hins, ← List.drop_drop, show (x :: tl).drop 1 = tl from rfl, hcomm]
    rw [hdrop1, htake1, hdropS]
    simp only [List.append_assoc]

theorem reRow_zero (chs : Nat) (cs al : List Nat) : reRow chs 0 cs al = [] := rfl

theorem reRow_succ (chs k : Nat) (cs al : List Nat) :
    reRow chs (k + 1) cs al =
      cs.take chs ++ al.take 1 ++ reRow chs k (cs.drop chs) (al.drop 1) := rfl

theorem reinterleaveAm_zero (chs w : Nat) (cs al : List Nat) :
    reinterleaveAm chs w 0 cs al = [] := rfl

theorem reinterleaveAm_succ (chs w r : Nat) (cs al : List Nat) :
    reinterleaveAm chs w (r + 1) cs al =
      cs.take 1 ++ reRow chs w (cs.drop 1) (al.drop 1) ++
        reinterleaveAm chs w r (cs.drop (1 + chs * w)) (al.drop (1 + w)) := rfl

theorem demuxPixels_length (chs k : Nat) :
    ∀ l : List Nat, k * (chs + 1) ≤ l.length →
    (demuxPixels chs k l).1.length = chs * k ∧
    (demuxPixels chs k l).2.length = k := by
  induction k with
  | zero =>
    intro l h
    simp [demuxPixels]
  | succ k ih =>
    intro l h
    have hlk : (k + 1) * (chs + 1) = k * (chs + 1) + (chs + 1) := by ring
    have h1 : k * (chs + 1) ≤ (l.drop (chs + 1)).length := by
      simp only [List.length_drop]
      omega
    obtain ⟨h2, h3⟩ := ih (l.drop (chs + 1)) h1
    rw [demuxPixels_succ]
    dsimp only
    constructor
    · simp only [List.length_append, List.length_take, h2]
      have hm : min chs l.length = chs := by omega
      rw [hm]
      ring
    · simp only [List.length_append, List.length_take, List.length_drop, h3]
      have hm : min 1 (l.length - chs) = 1 := by omega
      rw [hm]
      omega

theorem reRow_demux (chs k : Nat) :
    ∀ (l cs2 al2 : List Nat), k * (chs + 1) ≤ l.length →
    reRow chs k ((demuxPixels chs k l).1 ++ cs2)
      ((demuxPixels chs k l).2 ++ al2) = l.take (k * (chs + 1)) := by
  induction k with
  | zero =>
    intro l cs2 al2 h
    have h0 : 0 * (chs + 1) = 0 := by ring
    rw [h0]
    rfl
  | succ k ih =>
    intro l cs2 al2 h
    have hlk : (k + 1) * (chs + 1) = k * (chs + 1) + (chs + 1) := by ring
    rw [demuxPixels_succ]
    dsimp only
    rw [reRow_succ]
    rw [List.append_assoc (l.take chs), List.append_assoc ((l.drop chs).take 1)]
    rw [List.take_left' (by simp only [List.length_take]; omega),
        List.drop_left' (by simp only [List.length_take]; omega)]
    rw [List.take_left' (by simp only [List.length_take, List.length_drop]; omega),
        List.drop_left' (by simp only [List.length_take, List.length_drop]; omega)]
    rw [ih (l.drop (chs + 1)) cs2 al2 (by simp only [List.length_drop]; omega)]
    rw [hlk, Nat.add_comm (k * (chs + 1)) (chs + 1)]
    rw [List.take_add, List.take_add]

theorem reinterleaveAm_demux (chs w : Nat) : ∀ (r : Nat) (l : List Nat),
    l.length = r * (1 + (chs + 1) * w) →
    reinterleaveAm chs w r (demuxRows chs w r l).1 (demuxRows chs w r l).2 = l := by
  intro r
  induction r with
  | zero =>
    intro l h
    have h0 : 0 * (1 + (chs + 1) * w) = 0 := by ring
    rw [demuxRows_zero, reinterleaveAm_zero]
    exact (List.eq_nil_of_length_eq_zero (by omega)).symm
  | succ r ih =>
    intro l h
    have hrs : (r + 1) * (1 + (chs + 1) * w) = r * (1 + (chs + 1) * w) + (1 + (chs + 1) * w) := by
      ring
    have hcomm : (chs + 1) * w = w * (chs + 1) := Nat.mul_comm _ _
    have hlen1 : (l.drop 1).length = l.length - 1 := List.length_drop 1 l
    have hpxlen := demuxPixels_length chs w (l.drop 1)
      (by simp only [List.length_drop]; omega)
    rw [demuxRows_succ, reinterleaveAm_succ]
    dsimp only
    rw [List.append_assoc (l.take 1), List.append_assoc (l.take 1)]
    rw [List.take_left' (by simp only [List.length_take]; omega),
        List.drop_left' (by simp only [List.length_take]; omega)]
    rw [List.drop_left' (by simp only [List.length_take]; omega)]
    rw [reRow_demux chs w (l.drop 1) _ _ (by simp only [List.length_drop]; omega)]
    rw [← List.append_assoc (l.take 1), ← List.append_assoc (l.take 1)]
    rw [List.drop_left' (by
      simp only [List.length_append, List.length_take]
      omega),
        List.drop_left' (by
      simp only [List.length_append, List.length_take, List.length_drop]
      omega)]
    rw [ih (l.drop (1 + (chs + 1) * w)) (by simp only [List.length_drop]; omega)]
    rw [hcomm, ← List.take_add]
    rw [show 1 + w * (chs + 1) = 1 + (chs + 1) * w from by ring]
    exact List.take_append_drop _ l

/-- C4 counterexample: for a 1×1 Gray+Alpha image with decompressed
scanline stream [0, 10, 20] (filter byte 0, color 10, alpha 20), draining
the separator forwards [0, 10] and writes [0, 20] into the mask compressor
— the mask stream carries the duplicated filter byte.  Re-interleaving per
the §4.2 layout (which assumes the mask stream holds only alpha samples)
yields [0, 10, 0], not the original stream. -/
theorem c4_counterexample :
    (drain (newAlphaSeparator [0, 10, 20] 1 1 1)).1 = [0, 10] ∧
    (drain (newAlphaSeparator [0, 10, 20] 1 1 1)).2.2.alphaAcc = [0, 20] ∧
    reinterleaveSpec 1 1 1 [0, 10] [0, 20] = [0, 10, 0] ∧
    ([0, 10, 0] : List Nat) ≠ [0, 10, 20] := ⟨rfl, rfl, rfl, by decide⟩

/-- C4 amended: for every image geometry and every decompressed scanline
stream of exactly h rows, the two streams the separator produces (forwarded
color bytes; bytes written to the alpha compressor) reconstruct the original
stream byte-for-byte — provided the re-interleaving accounts for the row
filter byte that the code duplicates at the head of each mask-stream row
(layout per row: filter byte, then C color bytes and 1 alpha byte per pixel,
with the mask row's own leading filter byte skipped). -/
theorem c4_reconstruction (w h chs : Nat) (input : List Nat)
    (hlen : input.length = h * (1 + (chs + 1) * w)) :
    reinterleaveAm chs w h (drain (newAlphaSeparator input w h chs)).1
      (drain (newAlphaSeparator input w h chs)).2.2.alphaAcc = input := by
  have hd : 0 < chs + 1 := Nat.succ_pos _
  have hw1 : w ≤ (chs + 1) * w := Nat.le_mul_of_pos_left w hd
  have hfeq : h * (1 + w) ≤ h * (1 + (chs + 1) * w) :=
    Nat.mul_le_mul_left h (by omega)
  have hrows := drainGo_rows h (h * (1 + (chs + 1) * w) + 1)
    (newAlphaSeparator input w h chs)
    rfl (le_refl h)
    (by
      dsimp only [newAlphaSeparator]
      have : h - h = 0 := by omega
      rw [this]
      ring)
    (by dsimp only [newAlphaSeparator]; exact hlen)
    (by dsimp only [newAlphaSeparator]; omega)
  unfold drain
  dsimp only [newAlphaSeparator] at hrows ⊢
  rw [show h * (1 + (chs + 1) * w) + 1 - 0 = h * (1 + (chs + 1) * w) + 1 from rfl]
  rw [hrows]
  dsimp only
  rw [List.nil_append]
  exact reinterleaveAm_demux chs w h input hlen

theorem c4_witness :
    reinterleaveAm 1 1 1 (drain (newAlphaSeparator [0, 10, 20] 1 1 1)).1
      (drain (newAlphaSeparator [0, 10, 20] 1 1 1)).2.2.alphaAcc = [0, 10, 20] :=
  c4_reconstruction 1 1 1 [0, 10, 20] rfl

theorem sread_past (p : PngState) (b : Nat) (h : stateData < p.state) :
    sread p b = ([], some .eof, p) := by
  unfold sread
  rw [if_pos h]

theorem parseUntil_at_data (p : PngState) (h : p.state = stateData) :
    parseUntil p stateData = .ok p := by
  unfold parseUntil
  rw [if_neg (by rw [h]; decide)]
  exact parseChunksFuel_done _ _ _ (by omega) (Nat.succ_pos _)

theorem sread_mid_all (p : PngState) (b : Nat) (suffix rest2 : List Nat)
    (hst : p.state = stateData)
    (hrd : p.readable = suffix.length)
    (hne : suffix ≠ [])
    (hin : p.input = suffix ++ ([0, 0, 0, 0] ++ rest2))
    (hb : suffix.length ≤ b) :
    sread p b = (suffix, none, { p with readable := 0, input := rest2 }) := by
  have hsl : 0 < suffix.length := List.length_pos.mpr hne
  have hil : p.input.length = suffix.length + 4 + rest2.length := by
    rw [hin]
    simp [List.length_append]
    omega
  unfold sread
  rw [if_neg (by omega)]
  rw [parseUntil_at_data p hst]
  dsimp only
  rw [if_neg (by omega)]
  rw [skipZeroFuel_stop _ _ (by omega) (Nat.succ_pos _)]
  dsimp only
  rw [hrd]
  rw [show min b suffix.length = suffix.length from by omega]
  rw [show min suffix.length p.input.length = suffix.length from by omega]
  rw [hin, List.take_append_of_le_length (le_refl _),
      List.drop_append_of_le_length (le_refl _)]
  simp only [List.take_length, List.drop_length, List.nil_append]
  rw [if_pos (by omega)]
  rw [readN_append [0, 0, 0, 0] rest2 4 rfl]
  dsimp only
  rw [show suffix.length - suffix.length = 0 from by omega]

theorem sread_mid_part (p : PngState) (b : Nat) (suffix rest2 : List Nat)
    (hst : p.state = stateData)
    (hrd : p.readable = suffix.length)
    (hin : p.input = suffix ++ ([0, 0, 0, 0] ++ rest2))
    (hb1 : 1 ≤ b) (hb : b < suffix.length) :
    sread p b = (suffix.take b, none,
      { p with readable := suffix.length - b,
               input := suffix.drop b ++ ([0, 0, 0, 0] ++ rest2) }) := by
  have hil : p.input.length = suffix.length + 4 + rest2.length := by
    rw [hin]
    simp [List.length_append]
    omega
  unfold sread
  rw [if_neg (by omega)]
  rw [parseUntil_at_data p hst]
  dsimp only
  rw [if_neg (by omega)]
  rw [skipZeroFuel_stop _ _ (by omega) (Nat.succ_pos _)]
  dsimp only
  rw [hrd]
  rw [show min b suffix.length = b from by omega]
  rw [show min b p.input.length = b from by omega]
  rw [hin, List.take_append_of_le_length (by omega),
      List.drop_append_of_le_length (by omega)]
  rw [if_neg (by omega)]
  rw [if_neg (by omega)]

theorem chunksAfter_cons (pl : List Nat) (ps : List (List Nat)) :
    chunksAfter (pl :: ps) =
      be32 pl.length ++ tagIDAT ++ (pl ++ ([0, 0, 0, 0] ++ chunksAfter ps)) := by
  unfold chunksAfter
  simp only [List.map_cons, List.flatten_cons, mkChunk, List.append_assoc]

theorem chunksAfter_nil : chunksAfter [] = mkChunk tagIEND [] := by
  unfold chunksAfter
  simp

theorem sread_start_all (p : PngState) (b : Nat) (pl : List Nat)
    (ps : List (List Nat))
    (hst : p.state = stateData)
    (hrd : p.readable = 0)
    (hin : p.input = chunksAfter (pl :: ps))
    (hne : pl ≠ []) (hlen : pl.length < 2 ^ 32)
    (hb : pl.length ≤ b) :
    sread p b = (pl, none, { p with readable := 0, input := chunksAfter ps }) := by
  have hplpos : 0 < pl.length := List.length_pos.mpr hne
  have hinlen : p.input.length = 12 + pl.length + (chunksAfter ps).length := by
    rw [hin, chunksAfter_cons]
    simp [List.length_append, be32, tagIDAT]
    omega
  unfold sread
  rw [if_neg (by omega)]
  rw [parseUntil_at_data p hst]
  dsimp only
  rw [if_neg (by omega)]
  rw [skipZeroFuel_step _ _ hrd (by omega)]
  rw [parseChunk_idat p pl.length (pl ++ ([0, 0, 0, 0] ++ chunksAfter ps))
      (by rw [hin, chunksAfter_cons]) hlen]
  dsimp only
  rw [skipZeroFuel_stop _ _ (by dsimp only; omega) (by omega)]
  dsimp only
  have hmink : min b pl.length = pl.length := by omega
  have hminn : min pl.length (pl ++ ([0, 0, 0, 0] ++ chunksAfter ps)).length = pl.length := by
    rw [List.length_append]
    omega
  rw [hmink, hminn]
  rw [List.take_left, List.drop_left]
  rw [if_pos (by omega)]
  rw [readN_append [0, 0, 0, 0] (chunksAfter ps) 4 rfl]
  dsimp only
  rw [show pl.length - pl.length = 0 from by omega, hst]

theorem sread_start_part (p : PngState) (b : Nat) (pl : List Nat)
    (ps : List (List Nat))
    (hst : p.state = stateData)
    (hrd : p.readable = 0)
    (hin : p.input = chunksAfter (pl :: ps))
    (hne : pl ≠ []) (hlen : pl.length < 2 ^ 32)
    (hb1 : 1 ≤ b) (hb : b < pl.length) :
    sread p b = (pl.take b, none,
      { p with readable := pl.length - b,
               input := pl.drop b ++ ([0, 0, 0, 0] ++ chunksAfter ps) }) := by
  have hplpos : 0 < pl.length := List.length_pos.mpr hne
  have hinlen : p.input.length = 12 + pl.length + (chunksAfter ps).length := by
    rw [hin, chunksAfter_cons]
    simp [List.length_append, be32, tagIDAT]
    omega
  unfold sread
  rw [if_neg (by omega)]
  rw [parseUntil_at_data p hst]
  dsimp only
  rw [if_neg (by omega)]
  rw [skipZeroFuel_step _ _ hrd (by omega)]
  rw [parseChunk_idat p pl.length (pl ++ ([0, 0, 0, 0] ++ chunksAfter ps))
      (by rw [hin, chunksAfter_cons]) hlen]
  dsimp only
  rw [skipZeroFuel_stop _ _ (by dsimp only; omega) (by omega)]
  dsimp only
  have hmink : min b pl.length = b := by omega
  have hminn : min b (pl ++ ([0, 0, 0, 0] ++ chunksAfter ps)).length = b := by
    rw [List.length_append]
    omega
  rw [hmink]
  rw [hminn]
  rw [List.take_append_of_le_length (by omega),
      List.drop_append_of_le_length (by omega)]
  rw [if_neg (by omega)]
  rw [if_neg (by omega), hst]

theorem sread_iend (p : PngState) (b : Nat)
    (hst : p.state = stateData)
    (hrd : p.readable = 0)
    (hin : p.input = chunksAfter []) :
    sread p b = ([], some .eof, p) := by
  have hinlen : p.input.length = 12 := by
    rw [hin, chunksAfter_nil]
    rfl
  unfold sread
  rw [if_neg (by omega)]
  rw [parseUntil_at_data p hst]
  dsimp only
  rw [if_neg (by omega)]
  rw [skipZeroFuel_step _ _ hrd (by omega)]
  rw [parseChunk_iend p [] (by rw [hin, chunksAfter_nil]; simp)]
  dsimp only
  rw [skipZeroFuel_step _ _ (by dsimp only) (by omega)]
  rw [show parseChunk { p with state := stateEnd, readable := 0, input := [] } =
      .error .eof from by unfold parseChunk readN; simp]

theorem readAllGo_succ (fuel : Nat) (p : PngState) (b : Nat) :
    readAllGo (fuel + 1) p b =
      (match sread p b with
       | (bs, some e, _) => (bs, e)
       | (bs, none, p1) =>
         (bs ++ (readAllGo fuel p1 b).1, (readAllGo fuel p1 b).2)) := rfl

theorem chunksAfter_cons_length (pl : List Nat) (ps : List (List Nat)) :
    (chunksAfter (pl :: ps)).length = 12 + pl.length + (chunksAfter ps).length := by
  rw [chunksAfter_cons]
  simp [List.length_append, be32, tagIDAT]
  omega

theorem readAllGo_invariant (fuel : Nat) :
    ∀ (p : PngState) (b : Nat) (suffix : List Nat) (payloads : List (List Nat)),
    p.state = stateData →
    1 ≤ b →
    (∀ pl ∈ payloads, pl ≠ [] ∧ pl.length < 2 ^ 32) →
    p.readable = suffix.length →
    ((suffix = [] ∧ p.input = chunksAfter payloads) ∨
      (suffix ≠ [] ∧ p.input = suffix ++ ([0, 0, 0, 0] ++ chunksAfter payloads))) →
    p.input.length < fuel →
    readAllGo fuel p b = (suffix ++ payloads.flatten, .eof) := by
  induction fuel with
  | zero =>
    intro p b suffix payloads _ _ _ _ _ hf
    omega
  | succ fuel ih =>
    intro p b suffix payloads hst hb hpl hrd hshape hfuel
    rcases hshape with ⟨hsnil, hin⟩ | ⟨hsne, hin⟩
    · subst hsnil
      cases payloads with
      | nil =>
        rw [readAllGo_succ, sread_iend p b hst (by simpa using hrd) hin]
        simp
      | cons pl ps =>
        obtain ⟨hne, hlen⟩ := hpl pl (by simp)
        have hinlen : p.input.length = 12 + pl.length + (chunksAfter ps).length := by
          rw [hin, chunksAfter_cons_length]
        by_cases hble : pl.length ≤ b
        · rw [readAllGo_succ,
              sread_start_all p b pl ps hst (by simpa using hrd) hin hne hlen hble]
          dsimp only
          rw [ih _ b [] ps (by dsimp only; exact hst) hb
              (fun q hq => hpl q (by simp [hq])) (by dsimp only; rfl)
              (Or.inl ⟨rfl, rfl⟩) (by dsimp only; omega)]
          simp
        · push_neg at hble
          rw [readAllGo_succ,
              sread_start_part p b pl ps hst (by simpa using hrd) hin hne hlen hb hble]
          dsimp only
          have hdne : List.drop b pl ≠ [] := by
            have hld : 0 < (List.drop b pl).length := by
              simp only [List.length_drop]
              omega
            exact List.length_pos.mp hld
          rw [ih _ b (pl.drop b) ps (by dsimp only; exact hst) hb
              (fun q hq => hpl q (by simp [hq]))
              (by dsimp only; simp [List.length_drop])
              (Or.inr ⟨hdne, rfl⟩)
              (by dsimp only
                  simp only [List.length_append, List.length_drop, List.length_cons,
                    List.length_nil]
                  omega)]
          simp [List.flatten_cons, ← List.append_assoc, List.take_append_drop]
    · have hinlen : p.input.length = suffix.length + 4 + (chunksAfter payloads).length := by
        rw [hin]
        simp [List.length_append]
        omega
      by_cases hble : suffix.length ≤ b
      · rw [readAllGo_succ,
            sread_mid_all p b suffix (chunksAfter payloads) hst hrd hsne hin hble]
        dsimp only
        rw [ih _ b [] payloads (by dsimp only; exact hst) hb hpl
            (by dsimp only; rfl) (Or.inl ⟨rfl, rfl⟩) (by dsimp only; omega)]
        simp
      · push_neg at hble
        rw [readAllGo_succ,
            sread_mid_part p b suffix (chunksAfter payloads) hst hrd hin hb hble]
        dsimp only
        have hdne : List.drop b suffix ≠ [] := by
          have hld : 0 < (List.drop b suffix).length := by
            simp only [List.length_drop]
            omega
          exact List.length_pos.mp hld
        rw [ih _ b (suffix.drop b) payloads (by dsimp only; exact hst) hb hpl
            (by dsimp only; simp [List.length_drop])
            (Or.inr ⟨hdne, rfl⟩)
            (by dsimp only
                simp only [List.length_append, List.length_drop, List.length_cons,
                  List.length_nil]
                omega)]
        simp [← List.append_assoc, List.take_append_drop]

theorem c5_parseUntil_cons (w h bpc ct : Nat) (pal : List Nat)
    (pl : List Nat) (ps : List (List Nat))
    (hw : w < 2 ^ 32) (hh : h < 2 ^ 32) (hbpc : bpc ≤ 8)
    (hpallen : pal.length < 2 ^ 32) (hlen : pl.length < 2 ^ 32) :
    parseUntil { input := pngFile w h bpc ct pal (pl :: ps) } stateData =
      .ok { input := pl ++ ([0, 0, 0, 0] ++ chunksAfter ps),
            state := stateData, readable := pl.length,
            pal := if ct = 3 then pal else [],
            w := w, h := h, bpc := bpc, ct := ct } := by
  unfold parseUntil pngFile
  dsimp only [stateInit]
  rw [if_pos rfl]
  simp only [List.append_assoc]
  rw [show ((pl :: ps).map (fun q => mkChunk tagIDAT q)).flatten ++ mkChunk tagIEND [] =
      chunksAfter (pl :: ps) from rfl]
  rw [parseSignature_ok _ _ rfl]
  dsimp only
  have hihdr : (mkChunk tagIHDR (ihdrPayload w h bpc ct)).length = 25 := by
    simp [mkChunk, ihdrPayload, be32, tagIHDR, List.length_append]
  have hca0 : 12 ≤ (chunksAfter ps).length := by
    cases ps with
    | nil => rw [chunksAfter_nil]; simp [mkChunk, be32, tagIEND]
    | cons q qs => rw [chunksAfter_cons_length]; omega
  have hca : 13 ≤ (chunksAfter (pl :: ps)).length := by
    rw [chunksAfter_cons_length]
    omega
  by_cases hc3 : ct = 3
  · rw [if_pos hc3]
    have hplte : (mkChunk tagPLTE pal).length = 12 + pal.length := by
      simp [mkChunk, be32, tagPLTE, List.length_append]
      omega
    rw [parseChunksFuel_step _ _ _ (by dsimp only [stateSignature, stateData]; omega)
        (Nat.succ_pos _)]
    rw [parseChunk_ihdr _ w h bpc ct _ rfl hw hh hbpc]
    dsimp only
    rw [parseChunksFuel_step _ _ _ (by dsimp only [stateHeader, stateData]; omega)
        (by simp only [List.length_append]; omega)]
    rw [parseChunk_plte _ pal _ rfl hpallen]
    dsimp only
    rw [parseChunksFuel_step _ _ _ (by dsimp only [stateAnc, stateData]; omega)
        (by simp only [List.length_append]; omega)]
    rw [parseChunk_idat _ pl.length (pl ++ ([0, 0, 0, 0] ++ chunksAfter ps))
        (by rw [← chunksAfter_cons]) hlen]
    dsimp only
    rw [parseChunksFuel_done _ _ _ (by dsimp only [stateData]; omega) (by simp only [List.length_append]; omega)]
    rw [if_pos hc3]
  · rw [if_neg hc3]
    rw [List.nil_append]
    rw [parseChunksFuel_step _ _ _ (by dsimp only [stateSignature, stateData]; omega)
        (Nat.succ_pos _)]
    rw [parseChunk_ihdr _ w h bpc ct _ rfl hw hh hbpc]
    dsimp only
    rw [parseChunksFuel_step _ _ _ (by dsimp only [stateHeader, stateData]; omega)
        (by simp only [List.length_append]; omega)]
    rw [parseChunk_idat _ pl.length (pl ++ ([0, 0, 0, 0] ++ chunksAfter ps))
        (by rw [← chunksAfter_cons]) hlen]
    dsimp only
    rw [parseChunksFuel_done _ _ _ (by dsimp only [stateData]; omega) (by simp only [List.length_append]; omega)]
    rw [if_neg hc3]

theorem c5_parseUntil_nil (w h bpc ct : Nat) (pal : List Nat)
    (hw : w < 2 ^ 32) (hh : h < 2 ^ 32) (hbpc : bpc ≤ 8)
    (hpallen : pal.length < 2 ^ 32) :
    parseUntil { input := pngFile w h bpc ct pal [] } stateData =
      .ok { input := [], state := stateEnd, readable := 0,
            pal := if ct = 3 then pal else [],
            w := w, h := h, bpc := bpc, ct := ct } := by
  unfold parseUntil pngFile
  dsimp only [stateInit]
  rw [if_pos rfl]
  simp only [List.append_assoc]
  rw [show (([] : List (List Nat)).map (fun q => mkChunk tagIDAT q)).flatten ++
      mkChunk tagIEND [] = chunksAfter [] from rfl]
  rw [chunksAfter_nil]
  rw [parseSignature_ok _ _ rfl]
  dsimp only
  have hihdr : (mkChunk tagIHDR (ihdrPayload w h bpc ct)).length = 25 := by
    simp [mkChunk, ihdrPayload, be32, tagIHDR, List.length_append]
  have hiend : (mkChunk tagIEND ([] : List Nat)).length = 12 := by
    simp [mkChunk, be32, tagIEND]
  by_cases hc3 : ct = 3
  · rw [if_pos hc3]
    have hplte : (mkChunk tagPLTE pal).length = 12 + pal.length := by
      simp [mkChunk, be32, tagPLTE, List.length_append]
      omega
    rw [parseChunksFuel_step _ _ _ (by dsimp only [stateSignature, stateData]; omega)
        (Nat.succ_pos _)]
    rw [parseChunk_ihdr _ w h bpc ct _ rfl hw hh hbpc]
    dsimp only
    rw [parseChunksFuel_step _ _ _ (by dsimp only [stateHeader, stateData]; omega)
        (by simp only [List.length_append]; omega)]
    rw [parseChunk_plte _ pal _ rfl hpallen]
    dsimp only
    rw [parseChunksFuel_step _ _ _ (by dsimp only [stateAnc, stateData]; omega)
        (by simp only [List.length_append]; omega)]
    rw [show (mkChunk tagIEND [] : List Nat) = mkChunk tagIEND [] ++ [] from by simp]
    rw [parseChunk_iend _ [] rfl]
    dsimp only
    rw [parseChunksFuel_done _ _ _ (by dsimp only [stateEnd, stateData]; omega) (by simp only [List.length_append]; omega)]
    rw [if_pos hc3]
  · rw [if_neg hc3]
    rw [List.nil_append]
    rw [parseChunksFuel_step _ _ _ (by dsimp only [stateSignature, stateData]; omega)
        (Nat.succ_pos _)]
    rw [parseChunk_ihdr _ w h bpc ct _ rfl hw hh hbpc]
    dsimp only
    rw [parseChunksFuel_step _ _ _ (by dsimp only [stateHeader, stateData]; omega)
        (by simp only [List.length_append]; omega)]
    rw [show (mkChunk tagIEND [] : List Nat) = mkChunk tagIEND [] ++ [] from by simp]
    rw [parseChunk_iend _ [] rfl]
    dsimp only
    rw [parseChunksFuel_done _ _ _ (by dsimp only [stateEnd, stateData]; omega) (by simp only [List.length_append]; omega)]
    rw [if_neg hc3]

set_option maxRecDepth 100000 in
set_option maxHeartbeats 2000000 in
/-- **C5.** The claim as frozen is false for a well-formed stream that
contains a zero-length IDAT chunk: `parseChunk` returns for IDAT without
consuming the chunk's CRC, and when the payload is empty the skip-zero loop
immediately re-parses, misreading the CRC bytes as the next chunk header, so
the stream `[[], [1]]` of IDAT payloads yields `([], unexpectedEof)` instead
of the payload concatenation `([1], eof)`. -/
theorem c5_counterexample :
    readAll (parsepngstream (pngFile 1 1 8 0 [] [[], [1]]) false).stream 1 =
      ([], .unexpectedEof) ∧
    readAll (parsepngstream (pngFile 1 1 8 0 [] [[], [1]]) false).stream 1 ≠
      ([1], .eof) := by
  constructor
  · rfl
  · decide

/-- **C5** (amended: every IDAT payload nonempty).  For color types 0, 2 and
3, decoding a well-formed stream yields no error, a descriptor matching the
§4.3 classification (DeviceGray / DeviceRGB / Indexed, channel count 3 only
for true color, the palette kept only for Indexed, no alpha pipeline), and
reading the color stream to exhaustion returns exactly the concatenation of
the IDAT payloads in order, ending with a clean EOF — pass-through across any
number of (nonempty) IDAT chunks, each CRC consumed. -/
theorem c5_idat_passthrough (w h bpc ct b : Nat) (pal : List Nat)
    (payloads : List (List Nat))
    (hw : w < 2 ^ 32) (hh : h < 2 ^ 32) (hbpc : bpc ≤ 8)
    (hct : ct = 0 ∨ ct = 2 ∨ ct = 3)
    (hpal : ct = 3 → pal ≠ []) (hpallen : pal.length < 2 ^ 32)
    (hpl : ∀ pl ∈ payloads, pl ≠ [] ∧ pl.length < 2 ^ 32)
    (hb : 1 ≤ b) :
    (parsepngstream (pngFile w h bpc ct pal payloads) false).err = none ∧
    (parsepngstream (pngFile w h bpc ct pal payloads) false).info =
      some { w := w, h := h,
             cs := if ct = 0 then "DeviceGray"
                   else if ct = 2 then "DeviceRGB" else "Indexed",
             bpc := bpc, colorVal := if ct = 2 then 3 else 1,
             pal := if ct = 3 then pal else [], trns := [],
             alphaPipeline := false } ∧
    readAll (parsepngstream (pngFile w h bpc ct pal payloads) false).stream b =
      (payloads.flatten, .eof) := by
  cases payloads with
  | nil =>
    unfold parsepngstream
    dsimp only
    rw [c5_parseUntil_nil w h bpc ct pal hw hh hbpc hpallen]
    dsimp only
    rcases hct with rfl | rfl | rfl
    · rw [show pngColorSpace 0 = .ok ("DeviceGray", 1) from rfl]
      dsimp only
      rw [if_neg (by intro hand; exact absurd hand.1 (by decide))]
      refine ⟨rfl, rfl, ?_⟩
      unfold readAll
      dsimp only [List.length_nil]
      rw [readAllGo_succ]
      rw [sread_past _ b (by show stateData < stateEnd; decide)]
      rfl
    · rw [show pngColorSpace 2 = .ok ("DeviceRGB", 3) from rfl]
      dsimp only
      rw [if_neg (by intro hand; exact absurd hand.1 (by decide))]
      refine ⟨rfl, rfl, ?_⟩
      unfold readAll
      dsimp only [List.length_nil]
      rw [readAllGo_succ]
      rw [sread_past _ b (by show stateData < stateEnd; decide)]
      rfl
    · rw [show pngColorSpace 3 = .ok ("Indexed", 1) from rfl]
      dsimp only
      rw [if_pos rfl]
      rw [if_neg (by intro hand; exact absurd hand.2 (hpal rfl))]
      refine ⟨rfl, rfl, ?_⟩
      unfold readAll
      dsimp only [List.length_nil]
      rw [readAllGo_succ]
      rw [sread_past _ b (by show stateData < stateEnd; decide)]
      rfl
  | cons pl ps =>
    have hplhd := hpl pl (List.mem_cons_self pl ps)
    unfold parsepngstream
    dsimp only
    rw [c5_parseUntil_cons w h bpc ct pal pl ps hw hh hbpc hpallen hplhd.2]
    dsimp only
    have hread :
        readAllGo
          ((pl ++ ([0, 0, 0, 0] ++ chunksAfter ps)).length + 1)
          { input := pl ++ ([0, 0, 0, 0] ++ chunksAfter ps),
            state := stateData, readable := pl.length,
            pal := if ct = 3 then pal else [],
            w := w, h := h, bpc := bpc, ct := ct } b =
          (pl ++ ps.flatten, .eof) := by
      apply readAllGo_invariant _ _ _ pl ps rfl hb
        (fun q hq => hpl q (List.mem_cons_of_mem pl hq)) rfl
        (Or.inr ⟨hplhd.1, rfl⟩)
      dsimp only
      omega
    rcases hct with rfl | rfl | rfl
    · rw [show pngColorSpace 0 = .ok ("DeviceGray", 1) from rfl]
      dsimp only
      rw [if_neg (by intro hand; exact absurd hand.1 (by decide))]
      refine ⟨rfl, rfl, ?_⟩
      unfold readAll
      dsimp only
      rw [hread, List.flatten_cons]
    · rw [show pngColorSpace 2 = .ok ("DeviceRGB", 3) from rfl]
      dsimp only
      rw [if_neg (by intro hand; exact absurd hand.1 (by decide))]
      refine ⟨rfl, rfl, ?_⟩
      unfold readAll
      dsimp only
      rw [hread, List.flatten_cons]
    · rw [show pngColorSpace 3 = .ok ("Indexed", 1) from rfl]
      dsimp only
      rw [if_pos rfl]
      rw [if_neg (by intro hand; exact absurd hand.2 (hpal rfl))]
      refine ⟨rfl, rfl, ?_⟩
      unfold readAll
      dsimp only
      rw [if_pos rfl] at hread
      rw [hread, List.flatten_cons]

/-- Witness for C5: a grayscale 1×1 stream with two IDAT payloads. -/
theorem c5_witness :
    (parsepngstream (pngFile 1 1 8 0 [] [[9, 8, 7], [6, 5]]) false).err = none ∧
    (parsepngstream (pngFile 1 1 8 0 [] [[9, 8, 7], [6, 5]]) false).info =
      some { w := 1, h := 1, cs := "DeviceGray", bpc := 8, colorVal := 1,
             pal := [], trns := [], alphaPipeline := false } ∧
    readAll (parsepngstream (pngFile 1 1 8 0 [] [[9, 8, 7], [6, 5]]) false).stream 1 =
      ([9, 8, 7, 6, 5], .eof) := by
  simpa using c5_idat_passthrough 1 1 8 0 1 [] [[9, 8, 7], [6, 5]]
    (by decide) (by decide) (by decide) (Or.inl rfl)
    (by decide) (by decide) (by decide) (by decide)
